import Mathlib

/-!
Verification of `scrape_links.py` (youtube-channel-link-scraper).

The Python source is shallowly embedded over `List Char` (Python `str`).
Pure helpers become Lean functions; the stateful scrape loop becomes an
explicit fold over a list of subscriptions together with an oracle that
describes, per iteration, the outcome of the network fetch and the points
at which a `KeyboardInterrupt` signal may fire.

The script calls into `urllib.parse`; the relevant standard-library
functions (`urlparse`, `urlsplit`, `urljoin`, `urlunparse`, `parse_qs`,
`unquote`) are modelled here faithfully for the inputs the claims range
over, following the CPython implementation.  Two exceptional paths of
`urlsplit` are elided (the `ValueError` raised for mismatched square
brackets in a network location and the non-ASCII NFKC netloc check):
theorems about `normalise_channel_url` therefore carry explicit
hypotheses keeping inputs ASCII and bracket-free, where the model agrees
with CPython exactly.  Unicode-dependent primitives (`str.strip`,
`str.isspace`, `str.lower`) are modelled on the character sets that can
actually occur under those hypotheses (full whitespace table, ASCII
lowering).
-/

namespace YT

/-! ## Character predicates (Python `str` primitives) -/

/-- Python `str.isspace` / the whitespace set stripped by `str.strip()`:
tab, LF, VT, FF, CR, FS, GS, RS, US, space, NEL, NBSP, ogham space mark,
the general punctuation spaces, line/paragraph separator, narrow NBSP,
medium mathematical space, ideographic space. -/
def isPyWs (c : Char) : Bool :=
  c ∈ ['\t', '\n', (Char.ofNat 0x0b), (Char.ofNat 0x0c), '\r',
       (Char.ofNat 0x1c), (Char.ofNat 0x1d), (Char.ofNat 0x1e), (Char.ofNat 0x1f),
       ' ', (Char.ofNat 0x85), (Char.ofNat 0xa0), (Char.ofNat 0x1680),
       (Char.ofNat 0x2000), (Char.ofNat 0x2001), (Char.ofNat 0x2002), (Char.ofNat 0x2003),
       (Char.ofNat 0x2004), (Char.ofNat 0x2005), (Char.ofNat 0x2006), (Char.ofNat 0x2007),
       (Char.ofNat 0x2008), (Char.ofNat 0x2009), (Char.ofNat 0x200a),
       (Char.ofNat 0x2028), (Char.ofNat 0x2029), (Char.ofNat 0x202f),
       (Char.ofNat 0x205f), (Char.ofNat 0x3000)]

/-- The WHATWG "C0 control or space" set stripped from the ends of a URL by
modern `urllib.parse.urlsplit`. -/
def isC0OrSpace (c : Char) : Bool := c.toNat ≤ 0x20

/-- The bytes `urlsplit` removes from anywhere in a URL
(`_UNSAFE_URL_BYTES_TO_REMOVE = ["\t", "\r", "\n"]`). -/
def isUnsafeUrlByte (c : Char) : Bool := c ∈ ['\t', '\r', '\n']

def isAsciiAlpha (c : Char) : Bool :=
  ('a' ≤ c ∧ c ≤ 'z') ∨ ('A' ≤ c ∧ c ≤ 'Z')

def isAsciiDigit (c : Char) : Bool := '0' ≤ c ∧ c ≤ '9'

/-- Characters allowed after the first character of a URL scheme
(`urllib.parse.scheme_chars`). -/
def isSchemeChar (c : Char) : Bool :=
  isAsciiAlpha c ∨ isAsciiDigit c ∨ c ∈ ['+', '-', '.']

/-- Python `str.lower`, restricted to ASCII (sufficient under the ASCII
hypotheses carried by the URL theorems). -/
def asciiLower (c : Char) : Char :=
  if 'A' ≤ c ∧ c ≤ 'Z' then Char.ofNat (c.toNat + 32) else c

def lowerStr (s : List Char) : List Char := s.map asciiLower

def isAsciiChar (c : Char) : Bool := c.toNat ≤ 0x7f

def isAsciiStr (s : List Char) : Bool := s.all isAsciiChar

/-! ## List-of-char utilities mirroring Python string operations -/

/-- Strip characters satisfying `p` from the left end. -/
def lstripP (p : Char → Bool) (l : List Char) : List Char := l.dropWhile p

/-- Strip characters satisfying `p` from the right end. -/
def rstripP (p : Char → Bool) (l : List Char) : List Char :=
  (l.reverse.dropWhile p).reverse

/-- Python `str.strip()` (no argument): strip Unicode whitespace from both
ends. -/
def pyStrip (l : List Char) : List Char := rstripP isPyWs (lstripP isPyWs l)

/-- Python `str.strip(chars)` for the WHATWG C0-control-or-space set, as
applied at the start of `urlsplit`. -/
def whatwgStrip (l : List Char) : List Char :=
  rstripP isC0OrSpace (lstripP isC0OrSpace l)

/-- Removal of `\t`, `\r`, `\n` from anywhere in the URL, as done by
`urlsplit`. -/
def stripUnsafeBytes (l : List Char) : List Char :=
  l.filter (fun c => ¬ isUnsafeUrlByte c)

/-- Index of the first occurrence of a character (Python `str.find`). -/
def findIdxC (p : Char → Bool) : List Char → Option Nat
  | [] => none
  | c :: rest => if p c then some 0 else (findIdxC p rest).map (· + 1)

/-- Split at the first occurrence of `sep` (Python `str.split(sep, 1)` when
the separator occurs); `none` when `sep` does not occur. -/
def splitFirstC (sep : Char) : List Char → Option (List Char × List Char)
  | [] => none
  | c :: rest =>
    if c = sep then some ([], rest)
    else (splitFirstC sep rest).map (fun q => (c :: q.1, q.2))

/-- Helper for `splitAllC`: accumulates the current piece reversed. -/
def splitAllCGo (sep : Char) : List Char → List Char → List (List Char)
  | [], cur => [cur.reverse]
  | c :: rest, cur =>
    if c = sep then cur.reverse :: splitAllCGo sep rest []
    else splitAllCGo sep rest (c :: cur)

/-- Python `str.split(sep)` with a one-character separator: every
occurrence splits, `"".split(sep) = [""]`. -/
def splitAllC (sep : Char) (l : List Char) : List (List Char) :=
  splitAllCGo sep l []

/-- First index at which `pat` occurs as a contiguous sublist
(Python `str.find(pat)`); `some 0` for the empty pattern. -/
def findSublistIdx (pat : List Char) : List Char → Option Nat
  | [] => if pat.isEmpty then some 0 else none
  | c :: rest =>
    if pat.isPrefixOf (c :: rest) then some 0
    else (findSublistIdx pat rest).map (· + 1)

/-- Python substring containment `pat in s`. -/
def substrB (pat s : List Char) : Bool := (findSublistIdx pat s).isSome

/-- Python `'/'.join`-style join with a one-character separator. -/
def joinSep (sep : Char) (l : List (List Char)) : List Char :=
  List.intercalate [sep] l

/-- The last `/`-separated segment of a string (everything after the last
slash; the whole string when there is no slash). -/
def lastSlashSegment (l : List Char) : List Char :=
  (l.reverse.takeWhile (fun c => c ≠ '/')).reverse

def strOf (s : String) : List Char := s.data

/-! ## Model of `urllib.parse` (CPython) -/

/-- Result of `urlsplit` (the fields the script uses). -/
structure UrlSplitR where
  scheme : List Char
  netloc : List Char
  path : List Char
  query : List Char
  fragment : List Char
deriving DecidableEq, Repr

/-- Result of `urlparse`: `urlsplit` plus the `params` component split off
the last path segment. -/
structure UrlParseR where
  scheme : List Char
  netloc : List Char
  path : List Char
  params : List Char
  query : List Char
  fragment : List Char
deriving DecidableEq, Repr

/-- The scheme-detection step of `urlsplit`: `i = url.find(':')`; when
`i > 0`, `url[0]` is an ASCII letter and every character of `url[1:i]` is a
scheme character, the scheme is `url[:i].lower()` and the remainder
`url[i+1:]`; otherwise no scheme is split off. -/
def splitSchemeSplit (u : List Char) : Option (List Char × List Char) :=
  match findIdxC (fun c => c = ':') u with
  | none => none
  | some i =>
    if 0 < i ∧ (u.take 1).all isAsciiAlpha ∧ ((u.take i).drop 1).all isSchemeChar
    then some (lowerStr (u.take i), u.drop (i + 1))
    else none

/-- The netloc-extraction step (`_splitnetloc`): everything after the
leading `//` up to the first `/`, `?` or `#`. -/
def notNetlocEnd (c : Char) : Bool := ¬ (c = '/' ∨ c = '?' ∨ c = '#')

/-- Scheme stage of `urlsplit`: the detected scheme and remainder, or the
(cleaned) default scheme with the URL unchanged. -/
def schemeSplitOrDefault (u d : List Char) : List Char × List Char :=
  match splitSchemeSplit u with
  | some sr => sr
  | none => (d, u)

/-- Netloc stage of `urlsplit`: when the remainder starts with `//`, split
the network location off (up to the first `/`, `?` or `#`). -/
def netlocSplit (u1 : List Char) : List Char × List Char :=
  if (strOf "//").isPrefixOf u1 then
    ((u1.drop 2).takeWhile notNetlocEnd, (u1.drop 2).dropWhile notNetlocEnd)
  else ([], u1)

/-- Fragment stage: split at the first `#` (with `allow_fragments=True`). -/
def fragSplit (u2 : List Char) : List Char × List Char :=
  match splitFirstC '#' u2 with
  | some ab => ab
  | none => (u2, [])

/-- Query stage: split at the first `?`. -/
def querySplit (u3 : List Char) : List Char × List Char :=
  match splitFirstC '?' u3 with
  | some ab => ab
  | none => (u3, [])

/-- CPython `urllib.parse.urlsplit(url, scheme=default)` with
`allow_fragments=True`.  The `ValueError` paths (mismatched square
brackets in the netloc, the NFKC netloc check) are elided; the theorems
below restrict inputs so that those paths are unreachable. -/
def pyUrlsplit (url : List Char) (default : List Char) : UrlSplitR :=
  let u := stripUnsafeBytes (whatwgStrip url)
  let d := stripUnsafeBytes (whatwgStrip default)
  let su := schemeSplitOrDefault u d
  let nl := netlocSplit su.2
  let fq := fragSplit nl.2
  let pq := querySplit fq.1
  ⟨su.1, nl.1, pq.1, pq.2, fq.2⟩

/-- CPython `urllib.parse._splitparams`: split the params off the last path
segment at the first `;` occurring at or after the last `/` (at the first
`;` at all when there is no `/`). -/
def pySplitparams (p : List Char) : List Char × List Char :=
  if '/' ∈ p then
    let b := lastSlashSegment p
    if ';' ∈ b then
      let b1 := b.takeWhile (fun c => c ≠ ';')
      (p.take (p.length - b.length) ++ b1, b.drop (b1.length + 1))
    else (p, [])
  else
    match splitFirstC ';' p with
    | some ab => ab
    | none => (p, [])

/-- Schemes that use parameters (`urllib.parse.uses_params`). -/
def usesParams : List (List Char) :=
  [strOf "", strOf "ftp", strOf "hdl", strOf "prospero", strOf "http",
   strOf "imap", strOf "https", strOf "shttp", strOf "rtsp", strOf "rtspu",
   strOf "sip", strOf "sips", strOf "mms", strOf "sftp", strOf "tel"]

/-- Schemes that allow relative resolution (`urllib.parse.uses_relative`). -/
def usesRelative : List (List Char) :=
  [strOf "", strOf "ftp", strOf "http", strOf "gopher", strOf "nntp",
   strOf "imap", strOf "wais", strOf "file", strOf "https", strOf "shttp",
   strOf "mms", strOf "prospero", strOf "rtsp", strOf "rtspu", strOf "sftp",
   strOf "svn", strOf "svn+ssh", strOf "ws", strOf "wss"]

/-- Schemes that use a netloc (`urllib.parse.uses_netloc`). -/
def usesNetloc : List (List Char) :=
  [strOf "", strOf "ftp", strOf "http", strOf "gopher", strOf "nntp",
   strOf "telnet", strOf "imap", strOf "wais", strOf "file", strOf "mms",
   strOf "https", strOf "shttp", strOf "snews", strOf "prospero",
   strOf "rtsp", strOf "rtspu", strOf "rsync", strOf "svn",
   strOf "svn+ssh", strOf "sftp", strOf "nfs", strOf "git",
   strOf "git+ssh", strOf "ws", strOf "wss"]

/-- CPython `urllib.parse.urlparse(url, scheme=default)`. -/
def pyUrlparse (url : List Char) (default : List Char) : UrlParseR :=
  let s := pyUrlsplit url default
  if usesParams.contains s.scheme ∧ ';' ∈ s.path then
    let pp := pySplitparams s.path
    ⟨s.scheme, s.netloc, pp.1, pp.2, s.query, s.fragment⟩
  else
    ⟨s.scheme, s.netloc, s.path, [], s.query, s.fragment⟩

/-- CPython `urllib.parse.urlunsplit`. -/
def pyUrlunsplit (scheme netloc path query fragment : List Char) : List Char :=
  let url1 :=
    if netloc ≠ [] ∨ (strOf "//").isPrefixOf path then
      strOf "//" ++ netloc ++
        (if path ≠ [] ∧ path.head? ≠ some '/' then '/' :: path else path)
    else path
  let url2 := if scheme ≠ [] then scheme ++ ':' :: url1 else url1
  let url3 := if query ≠ [] then url2 ++ '?' :: query else url2
  if fragment ≠ [] then url3 ++ '#' :: fragment else url3

/-- CPython `urllib.parse.urlunparse`. -/
def pyUrlunparse (scheme netloc path params query fragment : List Char) :
    List Char :=
  pyUrlunsplit scheme netloc
    (if params ≠ [] then path ++ ';' :: params else path) query fragment

/-- CPython's in-place `segments[1:-1] = filter(None, segments[1:-1])`:
drop empty segments, keeping the first and last elements. -/
def filterMidKeepLast : List (List Char) → List (List Char)
  | [] => []
  | [x] => [x]
  | x :: xs => if x = [] then filterMidKeepLast xs else x :: filterMidKeepLast xs

def filterMiddle : List (List Char) → List (List Char)
  | [] => []
  | [x] => [x]
  | x :: xs => x :: filterMidKeepLast xs

/-- The `..`/`.` resolution loop of `urljoin`. -/
def resolveSegments (segs : List (List Char)) : List (List Char) :=
  segs.foldl
    (fun acc seg =>
      if seg = strOf ".." then acc.dropLast
      else if seg = strOf "." then acc
      else acc ++ [seg])
    []

/-- CPython `urllib.parse.urljoin(base, url)` with `allow_fragments=True`. -/
def pyUrljoin (base url : List Char) : List Char :=
  if base = [] then url
  else if url = [] then base
  else
    let b := pyUrlparse base []
    let r := pyUrlparse url b.scheme
    if r.scheme ≠ b.scheme ∨ ¬ usesRelative.contains r.scheme then url
    else if usesNetloc.contains r.scheme ∧ r.netloc ≠ [] then
      pyUrlunparse r.scheme r.netloc r.path r.params r.query r.fragment
    else
      let netloc := if usesNetloc.contains r.scheme then b.netloc else r.netloc
      if r.path = [] ∧ r.params = [] then
        pyUrlunparse r.scheme netloc b.path b.params
          (if r.query = [] then b.query else r.query) r.fragment
      else
        let baseParts0 := splitAllC '/' b.path
        let baseParts :=
          if baseParts0.getLast? ≠ some [] then baseParts0.dropLast else baseParts0
        let segments :=
          if r.path.head? = some '/' then splitAllC '/' r.path
          else filterMiddle (baseParts ++ splitAllC '/' r.path)
        let resolved0 := resolveSegments segments
        let resolved :=
          if segments.getLast? = some (strOf ".") ∨
             segments.getLast? = some (strOf "..")
          then resolved0 ++ [[]] else resolved0
        let path1 := joinSep '/' resolved
        let path2 := if path1 = [] then strOf "/" else path1
        pyUrlunparse r.scheme netloc path2 r.params r.query r.fragment

/-! ## Model of `urllib.parse.unquote` (percent decoding, UTF-8, replace) -/

def hexVal (c : Char) : Option Nat :=
  if isAsciiDigit c then some (c.toNat - '0'.toNat)
  else if 'a' ≤ c ∧ c ≤ 'f' then some (c.toNat - 'a'.toNat + 10)
  else if 'A' ≤ c ∧ c ≤ 'F' then some (c.toNat - 'A'.toNat + 10)
  else none

/-- One piece of `string.split('%')` (other than the first) turned into
bytes, as in `unquote_to_bytes`: a leading pair of hex digits becomes one
byte, otherwise the `%` is kept literally. -/
def pctChunkBytes (item : List Char) : List Nat :=
  match item with
  | a :: b :: t =>
    match hexVal a, hexVal b with
    | some x, some y => (16 * x + y) :: t.map Char.toNat
    | _, _ => 37 :: item.map Char.toNat
  | _ => 37 :: item.map Char.toNat

/-- CPython `urllib.parse.unquote_to_bytes` on an ASCII run. -/
def unquoteToBytes (s : List Char) : List Nat :=
  match splitAllC '%' s with
  | [] => []
  | b0 :: rest => b0.map Char.toNat ++ (rest.map pctChunkBytes).flatten

/-- The Unicode replacement character U+FFFD. -/
def replChar : Char := Char.ofNat 0xfffd

def isContByte (b : Nat) : Bool := 0x80 ≤ b ∧ b ≤ 0xbf

/-- Valid range of the first continuation byte of a three-byte sequence,
depending on the lead byte (E0 and ED are restricted). -/
def cont1Ok3 (lead b : Nat) : Bool :=
  if lead = 0xe0 then 0xa0 ≤ b ∧ b ≤ 0xbf
  else if lead = 0xed then 0x80 ≤ b ∧ b ≤ 0x9f
  else isContByte b

/-- Valid range of the first continuation byte of a four-byte sequence. -/
def cont1Ok4 (lead b : Nat) : Bool :=
  if lead = 0xf0 then 0x90 ≤ b ∧ b ≤ 0xbf
  else if lead = 0xf4 then 0x80 ≤ b ∧ b ≤ 0x8f
  else isContByte b

/-- UTF-8 decoding with `errors='replace'` (one U+FFFD per maximal invalid
subpart, as in CPython).  Fuelled to keep the definition structurally
recursive; each step consumes at least one byte. -/
def utf8Go : Nat → List Nat → List Char
  | 0, _ => []
  | _, [] => []
  | fuel + 1, b :: rest =>
    if b < 0x80 then Char.ofNat b :: utf8Go fuel rest
    else if b < 0xc2 then replChar :: utf8Go fuel rest
    else if b < 0xe0 then
      match rest with
      | [] => [replChar]
      | c1 :: r2 =>
        if isContByte c1 then
          Char.ofNat ((b - 0xc0) * 64 + (c1 - 0x80)) :: utf8Go fuel r2
        else replChar :: utf8Go fuel rest
    else if b < 0xf0 then
      match rest with
      | [] => [replChar]
      | c1 :: r2 =>
        if cont1Ok3 b c1 then
          match r2 with
          | [] => [replChar]
          | c2 :: r3 =>
            if isContByte c2 then
              Char.ofNat ((b - 0xe0) * 4096 + (c1 - 0x80) * 64 + (c2 - 0x80)) ::
                utf8Go fuel r3
            else replChar :: utf8Go fuel r2
        else replChar :: utf8Go fuel rest
    else if b < 0xf5 then
      match rest with
      | [] => [replChar]
      | c1 :: r2 =>
        if cont1Ok4 b c1 then
          match r2 with
          | [] => [replChar]
          | c2 :: r3 =>
            if isContByte c2 then
              match r3 with
              | [] => [replChar]
              | c3 :: r4 =>
                if isContByte c3 then
                  Char.ofNat ((b - 0xf0) * 262144 + (c1 - 0x80) * 4096 +
                    (c2 - 0x80) * 64 + (c3 - 0x80)) :: utf8Go fuel r4
                else replChar :: utf8Go fuel r3
            else replChar :: utf8Go fuel r2
        else replChar :: utf8Go fuel rest
    else replChar :: utf8Go fuel rest

def utf8DecodeReplace (bs : List Nat) : List Char := utf8Go (bs.length + 1) bs

/-- Process maximal ASCII / non-ASCII runs as CPython `unquote` does via
`_asciire.split`: each maximal ASCII run is percent-decoded to bytes and
UTF-8-decoded with replacement, non-ASCII runs pass through unchanged.
Fuelled; each step consumes at least one character. -/
def unquoteRuns : Nat → List Char → List Char
  | 0, _ => []
  | _, [] => []
  | fuel + 1, l =>
    let run := l.takeWhile isAsciiChar
    if run.isEmpty then
      let nrun := l.takeWhile (fun c => ¬ isAsciiChar c)
      nrun ++ unquoteRuns fuel (l.drop nrun.length)
    else
      utf8DecodeReplace (unquoteToBytes run) ++ unquoteRuns fuel (l.drop run.length)

/-- CPython `urllib.parse.unquote(string)` with UTF-8 / replace defaults. -/
def pyUnquote (s : List Char) : List Char :=
  if '%' ∈ s then unquoteRuns (s.length + 1) s else s

/-- Python `s.replace('+', ' ')` followed by `unquote`, as applied by `parse_qsl`
to both names and values. -/
def unquotePlus (s : List Char) : List Char :=
  pyUnquote (s.map (fun c => if c = '+' then ' ' else c))

/-- CPython `urllib.parse.parse_qsl(qs)` with default arguments
(`keep_blank_values=False`, separator `&`): empty chunks, chunks without
`=` and chunks with an empty value are all skipped. -/
def parseQsl (qs : List Char) : List (List Char × List Char) :=
  (splitAllC '&' qs).filterMap
    (fun nv =>
      if nv.isEmpty then none
      else
        match splitFirstC '=' nv with
        | none => none
        | some av =>
          if av.2.isEmpty then none
          else some (unquotePlus av.1, unquotePlus av.2))

/-- CPython `parse_qs(qs).get(name, [])`: all values bound to `name`, in order of
appearance. -/
def qsValues (name : List Char) (qs : List Char) : List (List Char) :=
  ((parseQsl qs).filter (fun p => p.1 = name)).map (fun p => p.2)

/-! ## `scrape_links.py`: constants -/

/-- The source constant `YOUTUBE_ORIGIN`. -/
def youtubeOrigin : List Char := strOf "https://www.youtube.com"

/-- The source constant `REDIRECT_` followed by `PREFIX`: the fixed marker a
redirect-wrapper link starts with. -/
def redirectMarker : List Char := strOf "https://www.youtube.com/redirect"

/-! ## `_iter_redirect_urls` -/

/-- One scan step plus recursion, fuelled (each step consumes at least the
marker, so `page.length` steps suffice): find the next occurrence of the
marker, extend the candidate up to the first whitespace character or `)`,
yield it, and continue scanning after it. -/
def iterRedirectUrlsGo : Nat → List Char → List (List Char)
  | 0, _ => []
  | fuel + 1, s =>
    match findSublistIdx redirectMarker s with
    | none => []
    | some i =>
      let rest := s.drop i
      let cand := rest.takeWhile (fun c => ¬ isPyWs c ∧ c ≠ ')')
      cand :: iterRedirectUrlsGo fuel (rest.drop cand.length)

/-- The generator `_iter_redirect_urls(page_text)` as a list. -/
def iterRedirectUrls (page : List Char) : List (List Char) :=
  iterRedirectUrlsGo (page.length + 1) page

/-! ## `parse_channel_links` -/

/-- The source list `events_priority`. -/
def eventsPriority : List (List Char) :=
  [strOf "channel_header", strOf "channel_about_metadata",
   strOf "channel_description"]

/-- The lookup `event_order.get(event, len(events_priority))`: the index of the tag in
the priority list, `3` for any other or missing tag. -/
def rankOf (event : List Char) : Nat :=
  eventsPriority.findIdx (fun e => e = event)

/-- One element of the `structured` list: `(event, dest, idx)`. -/
structure Entry where
  event : List Char
  dest : List Char
  idx : Nat
deriving DecidableEq, Repr

/-- The loop body building `structured`: parse the candidate URL, read the
`q` values from its query (skipping the candidate when there are none),
URL-decode the first one, and read the first `event` value (defaulting to
the empty string). -/
def redirectEntry (p : Nat × List Char) : Option Entry :=
  let parsed := pyUrlparse p.2 []
  match qsValues (strOf "q") parsed.query with
  | [] => none
  | t0 :: _ =>
    some ⟨((qsValues (strOf "event") parsed.query).headD []), pyUnquote t0, p.1⟩

/-- The `structured` list: candidates enumerated in discovery order, turned
into entries. -/
def structuredOf (page : List Char) : List Entry :=
  (iterRedirectUrls page).enum.filterMap redirectEntry

/-- The composite sort key as an order relation:
`(event_order.get(event, 3), idx)` compared lexicographically.  Python
`list.sort` is a stable sort by this key; insertion sort below is also
stable, and moreover the `idx` components of `structured` are pairwise
distinct, so the key order is antisymmetric on the list and every correct
sort computes the same list. -/
def entryLeP (a b : Entry) : Prop :=
  rankOf a.event < rankOf b.event ∨
    (rankOf a.event = rankOf b.event ∧ a.idx ≤ b.idx)

instance : DecidableRel entryLeP := fun a b => by
  unfold entryLeP
  infer_instance

instance : IsTrans Entry entryLeP := by
  refine ⟨fun a b c hab hbc => ?_⟩
  unfold entryLeP at *
  omega

instance : IsTotal Entry entryLeP := by
  refine ⟨fun a b => ?_⟩
  unfold entryLeP
  omega

/-- Strict version of the key order (used to state sortedness). -/
def entryLt (a b : Entry) : Prop :=
  rankOf a.event < rankOf b.event ∨
    (rankOf a.event = rankOf b.event ∧ a.idx < b.idx)

/-- The list `structured` after `structured.sort(key=...)`. -/
def sortedOf (page : List Char) : List Entry :=
  (structuredOf page).insertionSort entryLeP

/-- The final loop of `parse_channel_links`: skip empty destinations and
destinations already seen, append the rest.  The Python `seen` set is a
list here; only membership is used. -/
def linksLoop (seen : List (List Char)) : List Entry → List (List Char)
  | [] => []
  | e :: rest =>
    if e.dest = [] ∨ e.dest ∈ seen then linksLoop seen rest
    else e.dest :: linksLoop (e.dest :: seen) rest

/-- The function `parse_channel_links(page_text)`. -/
def parse_channel_links (page : List Char) : List (List Char) :=
  linksLoop [] (sortedOf page)

/-- The entries whose destinations survive the dedup loop (same recursion
as `linksLoop`, keeping whole entries). -/
def keptEntriesGo (seen : List (List Char)) : List Entry → List Entry
  | [] => []
  | e :: rest =>
    if e.dest = [] ∨ e.dest ∈ seen then keptEntriesGo seen rest
    else e :: keptEntriesGo (e.dest :: seen) rest

def keptEntriesOf (page : List Char) : List Entry :=
  keptEntriesGo [] (sortedOf page)

/-- Specification-side first-occurrence deduplication: keep each string at
the position of its first occurrence, dropping the later duplicates. -/
def pdedup : List (List Char) → List (List Char)
  | [] => []
  | x :: xs => x :: (pdedup xs).filter (fun y => y ≠ x)

/-! ## `normalise_channel_url` -/

/-- Python truthiness of an `Optional[str]` channel id. -/
def cidTruthy : Option (List Char) → Bool
  | none => false
  | some s => ¬ s.isEmpty

/-- Lines 85-91 of the source: strip the URL, parse it with default scheme
`https`; if it has no netloc, resolve it against the YouTube origin and
re-parse (with no default scheme); the `elif not parsed.scheme` branch is
kept although the default scheme makes it unreachable. -/
def normParsed (url : List Char) : UrlParseR :=
  let u := pyStrip url
  let p := pyUrlparse u (strOf "https")
  if p.netloc = [] then pyUrlparse (pyUrljoin youtubeOrigin u) []
  else if p.scheme = [] then { p with scheme := strOf "https" }
  else p

/-- The value `parsed.netloc.lower()` at line 92: the network location the host check
is applied to. -/
def resolvedNetloc (url : List Char) : List Char :=
  lowerStr (normParsed url).netloc

/-- Lines 95-97: the path with trailing slashes removed and a trailing
`/about` stripped. -/
def computedPath (url : List Char) : List Char :=
  let path := rstripP (fun c => c = '/') (normParsed url).path
  if (strOf "/about").isSuffixOf path then
    path.take (path.length - (strOf "/about").length)
  else path

/-- The function `normalise_channel_url(url, channel_id)`. -/
def normalise_channel_url (url : List Char) (channel_id : Option (List Char)) :
    Option (List Char) :=
  if url = [] then none
  else
    if substrB (strOf "youtube") (resolvedNetloc url) then
      let path := computedPath url
      let base := pyUrlunparse (strOf "https") (strOf "www.youtube.com") path [] [] []
      if cidTruthy channel_id ∧ ¬ substrB (strOf "/channel/") path then
        some (youtubeOrigin ++ strOf "/channel/" ++ pyStrip (channel_id.getD []))
      else some base
    else none

/-! ## `Subscription` and `SubscriptionReader._row_to_subscription` -/

structure Subscription where
  title : List Char
  url : List Char
  channel_id : Option (List Char)
deriving DecidableEq, Repr

/-- The helper `_normalise_column_name`: `name.strip().lower().replace("_", " ")`. -/
def normaliseColumnName (name : List Char) : List Char :=
  (lowerStr (pyStrip name)).map (fun c => if c = '_' then ' ' else c)

/-- The method `SubscriptionReader._get_first`: the value under the first key of the
row whose normalised name is in `keys` (a CSV row is an association list in
insertion order). -/
def getFirst (row : List (List Char × List Char)) (keys : List (List Char)) :
    Option (List Char) :=
  match row with
  | [] => none
  | kv :: rest =>
    if keys.contains (normaliseColumnName kv.1) then some kv.2
    else getFirst rest keys

def titleKeys : List (List Char) := [strOf "channel title", strOf "title"]

def urlKeys : List (List Char) := [strOf "channel url", strOf "url"]

def idKeys : List (List Char) := [strOf "channel id", strOf "id"]

/-- Python truthiness of an `Optional[str]`. -/
def truthyO : Option (List Char) → Bool
  | none => false
  | some s => ¬ s.isEmpty

/-- The method `SubscriptionReader._row_to_subscription`. -/
def rowToSubscription (row : List (List Char × List Char)) :
    Option Subscription :=
  let title := getFirst row titleKeys
  let url0 := getFirst row urlKeys
  let cid := getFirst row idKeys
  let url :=
    if ¬ truthyO url0 ∧ truthyO cid then
      some (youtubeOrigin ++ strOf "/channel/" ++ pyStrip (cid.getD []))
    else url0
  if ¬ truthyO title ∨ ¬ truthyO url then none
  else some ⟨pyStrip (title.getD []), pyStrip (url.getD []), cid⟩

/-! ## `scrape_links`: the orchestration loop

Side effects that do not touch the returned data (progress printing, the
`on_update` callback, the inter-request delay) are not modelled; the
points at which a `KeyboardInterrupt` signal can arrive during an
iteration are: while printing progress at the start of the iteration,
during the blocking fetch, and anywhere between the append and the start
of the next iteration (callback, result printing, sleep). -/

/-- Python exception classes relevant to the loop. `KeyboardInterrupt`
does not derive from `Exception`; the other two do. -/
inductive PyExn where
  | valueError
  | keyboardInterrupt
  | otherError
deriving DecidableEq, Repr

/-- Whether an exception is caught by `except Exception`. -/
def isExceptionClass : PyExn → Bool
  | .keyboardInterrupt => false
  | _ => true

/-- The property `Subscription.about_url`: raises `ValueError` when
`normalise_channel_url` returns a falsy value. -/
def aboutUrlE (s : Subscription) : Except PyExn (List Char) :=
  match normalise_channel_url s.url s.channel_id with
  | none => .error .valueError
  | some base =>
    if base = [] then .error .valueError else .ok (base ++ strOf "/about")

/-- The expression `[item.lower() for item in url_filters] if url_filters else None`:
`None` and the empty list both disable filtering. -/
def loweredFilters : Option (List (List Char)) → Option (List (List Char))
  | none => none
  | some l => if l.isEmpty then none else some (l.map lowerStr)

/-- The list-comprehension filter applied to parsed links when filters are
present: keep a link iff some lowered filter term occurs in the lowered
link. -/
def applyFilters (uf : Option (List (List Char))) (links : List (List Char)) :
    List (List Char) :=
  match loweredFilters uf with
  | none => links
  | some lf => links.filter (fun link => lf.any (fun f => substrB f (lowerStr link)))

/-- One result record (`channel_title` / `channel_url` / `links`). -/
structure ResultRecord where
  channel_title : List Char
  channel_url : List Char
  links : List (List Char)
deriving DecidableEq, Repr

/-- The record appended for a subscription whose page text is `text`:
`channel_url` is `canonical_url or subscription.url` (Python `or`: the
fallback is used when `normalise_channel_url` returns `None` or `""`). -/
def mkRecord (uf : Option (List (List Char))) (sub : Subscription)
    (text : List Char) : ResultRecord :=
  { channel_title := sub.title
    channel_url :=
      match normalise_channel_url sub.url sub.channel_id with
      | some c => if c = [] then sub.url else c
      | none => sub.url
    links := applyFilters uf (parse_channel_links text) }

/-- Behaviour of one loop iteration: whether the interrupt signal fires at
the start of the iteration, the outcome of `fetch_about_page`, and whether
the signal fires after the append (callback / printing / sleep). -/
structure IterBehavior where
  kiAtStart : Bool
  fetch : Except PyExn (List Char)
  kiAfterAppend : Bool
deriving Repr

/-- One iteration of the `for` body.  Returns the record appended by the
iteration (if any) and the exception escaping the body (if any):
`about_url` failures are caught by `except ValueError` and skip the
subscription, fetch failures by `except Exception` (which does not catch
`KeyboardInterrupt`). -/
def runIter (uf : Option (List (List Char))) (sub : Subscription)
    (b : IterBehavior) : Option ResultRecord × Option PyExn :=
  if b.kiAtStart then (none, some .keyboardInterrupt)
  else
    match aboutUrlE sub with
    | .error e => if e = .valueError then (none, none) else (none, some e)
    | .ok _ =>
      match b.fetch with
      | .error e => if isExceptionClass e then (none, none) else (none, some e)
      | .ok text =>
        (some (mkRecord uf sub text),
         if b.kiAfterAppend then some .keyboardInterrupt else none)

/-- The `for` loop with its `results` accumulator (`i` is the 0-based
iteration index into the behaviour oracle). -/
def scrapeLoop (uf : Option (List (List Char))) (behav : Nat → IterBehavior) :
    List Subscription → Nat → List ResultRecord →
    List ResultRecord × Option PyExn
  | [], _, acc => (acc, none)
  | s :: rest, i, acc =>
    match runIter uf s (behav i) with
    | (rec?, some e) => (acc ++ rec?.toList, some e)
    | (rec?, none) => scrapeLoop uf behav rest (i + 1) (acc ++ rec?.toList)

/-- The function `scrape_links(subscriptions, url_filters=uf)` under a behaviour
oracle: the outer `try` returns the collected results when a
`KeyboardInterrupt` escapes the loop; any other escaping exception would
propagate. -/
def scrape_links (subs : List Subscription) (behav : Nat → IterBehavior)
    (uf : Option (List (List Char))) : Except PyExn (List ResultRecord) :=
  match scrapeLoop uf behav subs 0 [] with
  | (res, none) => .ok res
  | (res, some .keyboardInterrupt) => .ok res
  | (_, some e) => .error e

/-- Specification-side record for one subscription: present exactly when
the about-URL resolves and the fetch succeeds. -/
def iterPure (uf : Option (List (List Char))) (b : IterBehavior)
    (sub : Subscription) : Option ResultRecord :=
  match aboutUrlE sub with
  | .error _ => none
  | .ok _ =>
    match b.fetch with
    | .error _ => none
    | .ok text => some (mkRecord uf sub text)

/-- Specification-side scrape: one record per successfully fetched
subscription, in input order. -/
def scrapePure (uf : Option (List (List Char))) (behav : Nat → IterBehavior)
    (subs : List Subscription) : List ResultRecord :=
  subs.enum.filterMap (fun p => iterPure uf (behav p.1) p.2)

/-! ## Lemmas about the parser pipeline (claims C1 and C2) -/

theorem mem_enumFrom_fst_le {α : Type} {n : Nat} {l : List α} {p : Nat × α}
    (h : p ∈ List.enumFrom n l) : n ≤ p.1 := by
  obtain ⟨i, x⟩ := p
  exact (List.mem_enumFrom h).1

theorem pairwise_fst_lt_enumFrom {α : Type} (l : List α) (n : Nat) :
    List.Pairwise (fun a b => a.1 < b.1) (List.enumFrom n l) := by
  induction l generalizing n with
  | nil => exact List.Pairwise.nil
  | cons x xs ih =>
    refine List.Pairwise.cons (fun b hb => ?_) (ih (n + 1))
    exact Nat.lt_of_lt_of_le (Nat.lt_succ_self n) (mem_enumFrom_fst_le hb)

theorem redirectEntry_idx {p : Nat × List Char} {e : Entry}
    (h : e ∈ redirectEntry p) : e.idx = p.1 := by
  unfold redirectEntry at h
  rcases hq : qsValues (strOf "q") (pyUrlparse p.2 []).query with _ | ⟨t0, ts⟩
  · simp [hq] at h
  · simp [hq] at h
    subst h
    rfl

theorem structured_pairwise_idx (page : List Char) :
    List.Pairwise (fun a b => a.idx < b.idx) (structuredOf page) := by
  unfold structuredOf
  rw [List.pairwise_filterMap]
  have hp := pairwise_fst_lt_enumFrom (iterRedirectUrls page) 0
  have : List.enum (iterRedirectUrls page) =
      List.enumFrom 0 (iterRedirectUrls page) := rfl
  rw [this]
  refine hp.imp_of_mem (fun {a b} _ _ hab => ?_)
  intro x hx y hy
  rw [redirectEntry_idx hx, redirectEntry_idx hy]
  exact hab

theorem sortedOf_pairwise_le (page : List Char) :
    List.Pairwise entryLeP (sortedOf page) :=
  List.sorted_insertionSort entryLeP (structuredOf page)

theorem sortedOf_pairwise_idx_ne (page : List Char) :
    List.Pairwise (fun a b => a.idx ≠ b.idx) (sortedOf page) := by
  have hperm := List.perm_insertionSort entryLeP (structuredOf page)
  have hiff := hperm.pairwise_iff
    (R := fun a b : Entry => a.idx ≠ b.idx) (fun h => h.symm)
  exact hiff.mpr ((structured_pairwise_idx page).imp Nat.ne_of_lt)

theorem sortedOf_pairwise_lt (page : List Char) :
    List.Pairwise entryLt (sortedOf page) := by
  refine ((sortedOf_pairwise_le page).and (sortedOf_pairwise_idx_ne page)).imp ?_
  intro a b hab
  obtain ⟨hle, hne⟩ := hab
  unfold entryLeP at hle
  unfold entryLt
  omega

theorem keptEntriesGo_sublist (l : List Entry) (seen : List (List Char)) :
    (keptEntriesGo seen l).Sublist l := by
  induction l generalizing seen with
  | nil => simp [keptEntriesGo]
  | cons e rest ih =>
    unfold keptEntriesGo
    by_cases h : e.dest = [] ∨ e.dest ∈ seen
    · rw [if_pos h]
      exact (ih seen).cons e
    · rw [if_neg h]
      exact (ih (e.dest :: seen)).cons₂ e

theorem linksLoop_eq_map_dest (l : List Entry) (seen : List (List Char)) :
    linksLoop seen l = (keptEntriesGo seen l).map Entry.dest := by
  induction l generalizing seen with
  | nil => rfl
  | cons e rest ih =>
    unfold linksLoop keptEntriesGo
    by_cases h : e.dest = [] ∨ e.dest ∈ seen
    · rw [if_pos h, if_pos h, ih]
    · rw [if_neg h, if_neg h, List.map_cons, ih]

/-- Boolean non-membership, used to keep filter predicates in a stable
form. -/
def notMem (seen : List (List Char)) (d : List Char) : Bool := ¬ d ∈ seen

/-- Boolean non-emptiness of a destination. -/
def keepNonempty (d : List Char) : Bool := ¬ d = []

theorem filter_ne_of_mem {d : List Char} {seen : List (List Char)}
    (hd : d ∈ seen) (l : List (List Char)) :
    (l.filter (fun y => ¬ y = d)).filter (notMem seen) =
      l.filter (notMem seen) := by
  rw [List.filter_filter]
  refine List.filter_congr (fun y _ => ?_)
  by_cases hy : y = d
  · subst hy
    simp [notMem, hd]
  · simp [notMem, hy]

theorem filter_notMem_cons (d : List Char) (seen : List (List Char))
    (l : List (List Char)) :
    l.filter (notMem (d :: seen)) =
      (l.filter (fun y => ¬ y = d)).filter (notMem seen) := by
  rw [List.filter_filter]
  refine List.filter_congr (fun y _ => ?_)
  by_cases hy : y = d
  · subst hy
    simp [notMem]
  · simp [notMem, List.mem_cons, hy]

theorem linksLoop_as_pdedup (l : List Entry) (seen : List (List Char)) :
    linksLoop seen l =
      (pdedup ((l.map Entry.dest).filter keepNonempty)).filter
        (notMem seen) := by
  induction l generalizing seen with
  | nil => rfl
  | cons e rest ih =>
    unfold linksLoop
    by_cases hnil : e.dest = []
    · rw [if_pos (Or.inl hnil), ih]
      have h1 : (List.map Entry.dest (e :: rest)).filter keepNonempty =
          (List.map Entry.dest rest).filter keepNonempty := by
        simp [List.filter_cons, keepNonempty, hnil]
      rw [h1]
    · have h1 : (List.map Entry.dest (e :: rest)).filter keepNonempty =
          e.dest :: (List.map Entry.dest rest).filter keepNonempty := by
        simp [List.filter_cons, keepNonempty, hnil]
      by_cases hseen : e.dest ∈ seen
      · rw [if_pos (Or.inr hseen), ih, h1]
        have h2 : pdedup (e.dest :: (List.map Entry.dest rest).filter keepNonempty) =
            e.dest :: (pdedup ((List.map Entry.dest rest).filter keepNonempty)).filter
              (fun y => ¬ y = e.dest) := rfl
        rw [h2]
        have h3 : notMem seen e.dest = false := by
          simp [notMem, hseen]
        rw [List.filter_cons_of_neg (by simp [h3]), filter_ne_of_mem hseen]
      · rw [if_neg (by tauto), ih, h1]
        have h2 : pdedup (e.dest :: (List.map Entry.dest rest).filter keepNonempty) =
            e.dest :: (pdedup ((List.map Entry.dest rest).filter keepNonempty)).filter
              (fun y => ¬ y = e.dest) := rfl
        rw [h2]
        have h3 : notMem seen e.dest = true := by
          simp [notMem, hseen]
        rw [List.filter_cons_of_pos (by simp [h3]), filter_notMem_cons]

theorem pdedup_nodup (l : List (List Char)) : (pdedup l).Nodup := by
  induction l with
  | nil => exact List.nodup_nil
  | cons x xs ih =>
    unfold pdedup
    refine List.Nodup.cons (fun hx => ?_) (ih.filter _)
    have := (List.mem_filter.mp hx).2
    simp at this

theorem mem_pdedup {y : List Char} {l : List (List Char)}
    (h : y ∈ pdedup l) : y ∈ l := by
  induction l with
  | nil => simp [pdedup] at h
  | cons x xs ih =>
    unfold pdedup at h
    rcases List.mem_cons.mp h with h | h
    · exact h ▸ List.mem_cons_self x xs
    · exact List.mem_cons_of_mem x (ih (List.mem_filter.mp h).1)

/-- The concrete page text of the claim's example: redirect links tagged
`channel_description`, `channel_header`, and an untagged one, in that
textual order, with distinct destinations. -/
def c1ExamplePage : List Char :=
  strOf "Links: https://www.youtube.com/redirect?event=channel_description&q=https%3A%2F%2Fdesc.example and (https://www.youtube.com/redirect?event=channel_header&q=https%3A%2F%2Fhdr.example) text https://www.youtube.com/redirect?q=https%3A%2F%2Fplain.example end"

set_option maxRecDepth 100000 in
/-- C1: for every page text, `parse_channel_links` returns the destinations
of the kept entries, and the kept entries are strictly increasing in the
composite key (priority rank of the `event` tag first — `channel_header`,
then `channel_about_metadata`, then `channel_description`, then any other
or missing tag — then original discovery index within the same rank, the
stable tiebreak).  In particular, on the concrete example page containing
redirect links tagged `channel_description`, `channel_header`, and an
untagged one in that textual order with distinct destinations, the output
is the `channel_header` destination, then the `channel_description`
destination, then the untagged one. -/
theorem claim_C1_priority_order :
    (∀ page : List Char,
        parse_channel_links page = (keptEntriesOf page).map Entry.dest) ∧
    (∀ page : List Char, List.Pairwise entryLt (keptEntriesOf page)) ∧
    parse_channel_links c1ExamplePage =
      [strOf "https://hdr.example", strOf "https://desc.example",
       strOf "https://plain.example"] := by
  refine ⟨fun page => linksLoop_eq_map_dest _ _, fun page => ?_, ?_⟩
  · exact List.Pairwise.sublist
      (keptEntriesGo_sublist (sortedOf page) [])
      (sortedOf_pairwise_lt page)
  · decide

/-- C2: for every page text, the list returned by `parse_channel_links`
contains no duplicate URL (exact, case-sensitive `List Char` equality) and
no empty string, and it equals the first-occurrence deduplication
(`pdedup`) of the non-empty destinations of the sorted candidate list — so
a destination appearing in several redirect occurrences is kept exactly
once, at the position of its first occurrence in the post-sort order. -/
theorem claim_C2_dedup_invariants :
    ∀ page : List Char,
      (parse_channel_links page).Nodup ∧
      ¬ ([] ∈ parse_channel_links page) ∧
      parse_channel_links page =
        pdedup (((sortedOf page).map Entry.dest).filter keepNonempty) := by
  intro page
  have hmain : parse_channel_links page =
      pdedup (((sortedOf page).map Entry.dest).filter keepNonempty) := by
    unfold parse_channel_links
    rw [linksLoop_as_pdedup]
    refine List.filter_eq_self.mpr (fun a _ => ?_)
    simp [notMem]
  refine ⟨hmain ▸ pdedup_nodup _, ?_, hmain⟩
  intro hmem
  rw [hmain] at hmem
  have h2 := (List.mem_filter.mp (mem_pdedup hmem)).2
  simp [keepNonempty] at h2

/-! ## Claims C4 and C9: `normalise_channel_url` host test and channel id -/

/-- C4 counterexample: the claim states that `normalise_channel_url` fails
exactly when the resolved host is not a YouTube host.  The empty URL
refutes it: the resolution procedure used by the function (`urljoin`
against the YouTube origin) resolves the empty URL to the YouTube origin
itself, whose host is `www.youtube.com`, yet the function returns nothing
because of its early `if not url` guard.  (The whitespace-only URL `" "`,
which reaches the resolution, does return a canonical URL.) -/
theorem claim_C4_counterexample :
    normalise_channel_url [] none = none ∧
    substrB (strOf "youtube") (resolvedNetloc []) = true ∧
    normalise_channel_url (strOf " ") none = some youtubeOrigin := by
  refine ⟨rfl, by decide, by decide⟩

/-- C4 amended: for every non-empty URL (ASCII and square-bracket-free, so
that the elided `urlsplit` error paths cannot fire), `normalise_channel_url`
returns nothing exactly when the resolved network location does not contain
`"youtube"` (case-insensitively); when it does, a canonical URL is
returned. -/
theorem claim_C4_youtube_host_amended :
    ∀ (url : List Char) (cid : Option (List Char)),
      url ≠ [] → isAsciiStr url = true → ¬ '[' ∈ url → ¬ ']' ∈ url →
      (normalise_channel_url url cid = none ↔
        substrB (strOf "youtube") (resolvedNetloc url) = false) := by
  intro url cid hne _ _ _
  unfold normalise_channel_url
  rw [if_neg hne]
  by_cases h : substrB (strOf "youtube") (resolvedNetloc url) = true
  · rw [if_pos h]
    constructor
    · intro hc
      exfalso
      by_cases hcid : cidTruthy cid ∧
          ¬ substrB (strOf "/channel/") (computedPath url) = true
      · rw [if_pos hcid] at hc
        exact Option.noConfusion hc
      · rw [if_neg hcid] at hc
        exact Option.noConfusion hc
    · intro hf
      rw [h] at hf
      exact Bool.noConfusion hf
  · have hb : substrB (strOf "youtube") (resolvedNetloc url) = false := by
      revert h
      cases substrB (strOf "youtube") (resolvedNetloc url) <;> simp
    rw [if_neg (by simp [hb])]
    simp [hb]

/-- C4 witness: a non-YouTube host yields no canonical result, via the
amended theorem at a concrete input. -/
theorem claim_C4_witness :
    normalise_channel_url (strOf "https://example.com/x") none = none :=
  (claim_C4_youtube_host_amended (strOf "https://example.com/x") none
    (by decide) (by decide) (by decide) (by decide)).mpr (by decide)

/-! ## Claim C3: generic lemmas for re-parsing a canonical URL -/

theorem dropWhile_eq_self_of_head {p : Char → Bool} {l : List Char}
    (h : ∀ ch ∈ l.head?, p ch = false) : l.dropWhile p = l := by
  cases l with
  | nil => rfl
  | cons a t =>
    rw [List.dropWhile_cons, h a rfl]
    simp

theorem rstripP_eq_self_of_getLast {p : Char → Bool} {l : List Char}
    (h : ∀ ch ∈ l.getLast?, p ch = false) : rstripP p l = l := by
  unfold rstripP
  rw [dropWhile_eq_self_of_head (by rw [List.head?_reverse]; exact h)]
  exact List.reverse_reverse l

theorem findIdxC_append_of_found {p : Char → Bool} {l1 : List Char} {i : Nat}
    (h : findIdxC p l1 = some i) (l2 : List Char) :
    findIdxC p (l1 ++ l2) = some i := by
  induction l1 generalizing i with
  | nil => exact absurd h (by simp [findIdxC])
  | cons a t ih =>
    rw [List.cons_append]
    simp only [findIdxC] at h ⊢
    by_cases hp : p a = true
    · rw [if_pos hp] at h ⊢
      exact h
    · rw [if_neg hp] at h ⊢
      rcases Option.map_eq_some'.mp h with ⟨j, hj, hji⟩
      rw [ih hj]
      simpa using hji

theorem splitFirstC_eq_none_of_not_mem {sep : Char} {l : List Char}
    (h : ¬ sep ∈ l) : splitFirstC sep l = none := by
  induction l with
  | nil => rfl
  | cons a t ih =>
    unfold splitFirstC
    rw [if_neg (by intro hc; exact h (hc ▸ List.mem_cons_self a t)),
      ih (fun hm => h (List.mem_cons_of_mem a hm))]
    rfl

theorem dropWhile_append_of_all {p : Char → Bool} {xs : List Char}
    (h : ∀ a ∈ xs, p a = true) (ys : List Char) :
    (xs ++ ys).dropWhile p = ys.dropWhile p := by
  induction xs with
  | nil => rfl
  | cons a t ih =>
    rw [List.cons_append, List.dropWhile_cons, if_pos (h a (List.mem_cons_self a t))]
    exact ih (fun b hb => h b (List.mem_cons_of_mem a hb))

theorem takeWhile_append_stop {p : Char → Bool} {xs : List Char} {x : Char}
    (hx : x ∈ xs) (hpx : p x = false) (ys : List Char) :
    (xs ++ ys).takeWhile p = xs.takeWhile p := by
  rw [List.takeWhile_append, if_neg]
  intro hlen
  have heq : xs.takeWhile p = xs :=
    ( List.takeWhile_prefix p).eq_of_length hlen
  have := List.mem_takeWhile_imp (heq ▸ hx)
  rw [hpx] at this
  exact Bool.noConfusion this

theorem substrB_cons_of {pat : List Char} {l : List Char} (x : Char)
    (h : substrB pat l = true) : substrB pat (x :: l) = true := by
  unfold substrB findSublistIdx
  by_cases hp : pat.isPrefixOf (x :: l) = true
  · rw [if_pos hp]
    rfl
  · rw [if_neg hp]
    unfold substrB at h
    simpa using h

theorem substrB_of_append_left (pat r : List Char) :
    substrB pat (pat ++ r) = true := by
  cases pat with
  | nil =>
    cases r with
    | nil => rfl
    | cons c t => simp [substrB, findSublistIdx]
  | cons a t =>
    simp only [substrB, List.cons_append, findSublistIdx]
    rw [if_pos (show (a :: t).isPrefixOf (a :: t.append r) = true from
      List.isPrefixOf_iff_prefix.mpr ⟨r, rfl⟩)]
    rfl

/-- The side conditions on a canonical URL `c` under which re-normalising
it is the identity: its last character survives both stripping passes and
is not a slash, it contains no query/fragment separators and no unsafe
bytes, it does not end in `/about`, and its last path segment contains no
semicolon. -/
def canonicalStable (c : List Char) : Prop :=
  ¬ '?' ∈ c ∧ ¬ '#' ∈ c ∧ ¬ '\t' ∈ c ∧ ¬ '\r' ∈ c ∧ ¬ '\n' ∈ c ∧
  c.getLast?.all
    (fun ch => ¬ isPyWs ch ∧ ¬ isC0OrSpace ch ∧ ¬ ch = '/') = true ∧
  (strOf "/about").isSuffixOf c = false ∧
  ¬ ';' ∈ lastSlashSegment c

instance : DecidablePred canonicalStable := fun c => by
  unfold canonicalStable
  infer_instance

theorem urlsplit_youtube (q : List Char)
    (hhead : q = [] ∨ q.head? = some '/')
    (hq1 : ¬ '?' ∈ q) (hq2 : ¬ '#' ∈ q)
    (ht : ¬ '\t' ∈ q) (hr : ¬ '\r' ∈ q) (hn : ¬ '\n' ∈ q)
    (hlastC0 : ∀ ch ∈ q.getLast?, isC0OrSpace ch = false) :
    pyUrlsplit (youtubeOrigin ++ q) (strOf "https") =
      ⟨strOf "https", strOf "www.youtube.com", q, [], []⟩ := by
  have hclean : stripUnsafeBytes (whatwgStrip (youtubeOrigin ++ q)) =
      youtubeOrigin ++ q := by
    have hstrip : whatwgStrip (youtubeOrigin ++ q) = youtubeOrigin ++ q := by
      unfold whatwgStrip lstripP
      rw [dropWhile_eq_self_of_head (by
        intro ch hch
        rw [show (youtubeOrigin ++ q).head? = some 'h' from rfl] at hch
        obtain rfl : 'h' = ch := by simpa using hch
        decide)]
      refine rstripP_eq_self_of_getLast ?_
      intro ch hch
      rw [List.getLast?_append] at hch
      cases hq : q.getLast? with
      | some c =>
        rw [hq] at hch
        obtain rfl : c = ch := by simpa [Option.or] using hch
        exact hlastC0 _ hq
      | none =>
        rw [hq] at hch
        obtain rfl : 'm' = ch := by
          simpa [Option.or,
            show youtubeOrigin.getLast? = some 'm' from by decide] using hch
        decide
    rw [hstrip]
    refine List.filter_eq_self.mpr (fun a ha => ?_)
    simp only [decide_eq_true_eq, Bool.not_eq_true]
    rcases List.mem_append.mp ha with hP | hq
    · have hP2 : ∀ x ∈ youtubeOrigin, isUnsafeUrlByte x = false := by decide
      exact hP2 a hP
    · simp only [isUnsafeUrlByte, decide_eq_false_iff_not]
      intro hmem
      simp only [List.mem_cons, List.not_mem_nil, or_false] at hmem
      rcases hmem with h | h | h
      · exact ht (h ▸ hq)
      · exact hr (h ▸ hq)
      · exact hn (h ▸ hq)
  have hscheme : splitSchemeSplit (youtubeOrigin ++ q) =
      some (strOf "https", strOf "//www.youtube.com" ++ q) := by
    unfold splitSchemeSplit
    rw [findIdxC_append_of_found
      (show findIdxC (fun c => c = ':') youtubeOrigin = some 5 from by decide) q]
    dsimp only
    rw [if_pos ?_]
    · rw [List.take_append_of_le_length (by decide),
        List.drop_append_of_le_length (by decide)]
      rw [show lowerStr (youtubeOrigin.take 5) = strOf "https" from by decide,
        show youtubeOrigin.drop (5 + 1) = strOf "//www.youtube.com" from by decide]
    · refine ⟨by decide, ?_, ?_⟩
      · rw [List.take_append_of_le_length (by decide)]
        decide
      · rw [List.take_append_of_le_length (by decide)]
        decide
  have hsu : schemeSplitOrDefault (youtubeOrigin ++ q)
      (stripUnsafeBytes (whatwgStrip (strOf "https"))) =
      (strOf "https", strOf "//www.youtube.com" ++ q) := by
    unfold schemeSplitOrDefault
    rw [hscheme]
  have hdrop2 : (strOf "//www.youtube.com" ++ q).drop 2 =
      strOf "www.youtube.com" ++ q := by
    rw [List.drop_append_of_le_length (by decide),
      show (strOf "//www.youtube.com").drop 2 = strOf "www.youtube.com" from by decide]
  have hTW : (strOf "www.youtube.com" ++ q).takeWhile notNetlocEnd =
      strOf "www.youtube.com" := by
    rw [List.takeWhile_append, if_pos (by decide)]
    rcases hhead with rfl | hh
    · simp
    · cases q with
      | nil => simp at hh
      | cons c t =>
        have : c = '/' := by simpa using hh
        subst this
        rw [List.takeWhile_cons, if_neg (by decide)]
        simp
  have hDW : (strOf "www.youtube.com" ++ q).dropWhile notNetlocEnd = q := by
    rw [dropWhile_append_of_all (by decide) q]
    rcases hhead with rfl | hh
    · rfl
    · cases q with
      | nil => rfl
      | cons c t =>
        have : c = '/' := by simpa using hh
        subst this
        rw [List.dropWhile_cons, if_neg (by decide)]
  have hnl : netlocSplit (strOf "//www.youtube.com" ++ q) =
      (strOf "www.youtube.com", q) := by
    unfold netlocSplit
    rw [if_pos ?_]
    · rw [hdrop2, hTW, hDW]
    · rw [show strOf "//www.youtube.com" = strOf "//" ++ strOf "www.youtube.com"
        from by decide, List.append_assoc]
      exact List.isPrefixOf_iff_prefix.mpr ⟨_, rfl⟩
  have hfq : fragSplit q = (q, []) := by
    unfold fragSplit
    rw [splitFirstC_eq_none_of_not_mem hq2]
  have hpq : querySplit q = (q, []) := by
    unfold querySplit
    rw [splitFirstC_eq_none_of_not_mem hq1]
  simp only [pyUrlsplit]
  rw [hclean, hsu]
  dsimp only
  rw [hnl]
  dsimp only
  rw [hfq]
  dsimp only
  rw [hpq]

theorem urlparse_youtube (q : List Char)
    (hhead : q = [] ∨ q.head? = some '/')
    (hq1 : ¬ '?' ∈ q) (hq2 : ¬ '#' ∈ q)
    (ht : ¬ '\t' ∈ q) (hr : ¬ '\r' ∈ q) (hn : ¬ '\n' ∈ q)
    (hlastC0 : ∀ ch ∈ q.getLast?, isC0OrSpace ch = false)
    (hsemi : ¬ ';' ∈ lastSlashSegment q) :
    pyUrlparse (youtubeOrigin ++ q) (strOf "https") =
      ⟨strOf "https", strOf "www.youtube.com", q, [], [], []⟩ := by
  unfold pyUrlparse
  rw [urlsplit_youtube q hhead hq1 hq2 ht hr hn hlastC0]
  dsimp only
  by_cases hsc : ';' ∈ q
  · rw [if_pos ⟨by decide, hsc⟩]
    have hps : pySplitparams q = (q, []) := by
      have hqne : q ≠ [] := by
        intro hnil
        rw [hnil] at hsc
        exact List.not_mem_nil ';' hsc
      have hslash : '/' ∈ q := by
        rcases hhead with rfl | hh
        · exact absurd rfl hqne
        · cases q with
          | nil => exact absurd rfl hqne
          | cons a t =>
            obtain rfl : a = '/' := by simpa using hh
            exact List.mem_cons_self '/' t
      unfold pySplitparams
      rw [if_pos hslash]
      dsimp only
      rw [if_neg hsemi]
    rw [hps]
  · rw [if_neg (fun hc => hsc hc.2)]

/-- Both passes of a Python two-sided strip leave a list unchanged when
its first and last characters fail the predicate. -/
theorem strip2_eq_self {p : Char → Bool} {l : List Char}
    (h1 : ∀ ch ∈ l.head?, p ch = false) (h2 : ∀ ch ∈ l.getLast?, p ch = false) :
    rstripP p (lstripP p l) = l := by
  unfold lstripP
  rw [dropWhile_eq_self_of_head h1]
  exact rstripP_eq_self_of_getLast h2

theorem getLast_append_youtube {q : List Char} {p : Char → Bool}
    (hm : p 'm' = false) (hlast : ∀ ch ∈ q.getLast?, p ch = false) :
    ∀ ch ∈ (youtubeOrigin ++ q).getLast?, p ch = false := by
  intro ch hch
  rw [List.getLast?_append] at hch
  cases hq : q.getLast? with
  | some c =>
    rw [hq] at hch
    obtain rfl : c = ch := by simpa [Option.or] using hch
    exact hlast _ hq
  | none =>
    rw [hq] at hch
    obtain rfl : 'm' = ch := by
      simpa [Option.or,
        show youtubeOrigin.getLast? = some 'm' from by decide] using hch
    exact hm

theorem head_append_youtube {q : List Char} {p : Char → Bool}
    (hh : p 'h' = false) :
    ∀ ch ∈ (youtubeOrigin ++ q).head?, p ch = false := by
  intro ch hch
  rw [show (youtubeOrigin ++ q).head? = some 'h' from rfl] at hch
  obtain rfl : 'h' = ch := by simpa using hch
  exact hh

theorem normParsed_youtube (q : List Char)
    (hhead : q = [] ∨ q.head? = some '/')
    (hq1 : ¬ '?' ∈ q) (hq2 : ¬ '#' ∈ q)
    (ht : ¬ '\t' ∈ q) (hr : ¬ '\r' ∈ q) (hn : ¬ '\n' ∈ q)
    (hlastC0 : ∀ ch ∈ q.getLast?, isC0OrSpace ch = false)
    (hlastPy : ∀ ch ∈ q.getLast?, isPyWs ch = false)
    (hsemi : ¬ ';' ∈ lastSlashSegment q) :
    normParsed (youtubeOrigin ++ q) =
      ⟨strOf "https", strOf "www.youtube.com", q, [], [], []⟩ := by
  have hstr : pyStrip (youtubeOrigin ++ q) = youtubeOrigin ++ q := by
    unfold pyStrip
    exact strip2_eq_self (head_append_youtube (by decide))
      (getLast_append_youtube (by decide) hlastPy)
  simp only [normParsed]
  rw [hstr, urlparse_youtube q hhead hq1 hq2 ht hr hn hlastC0 hsemi]
  dsimp only
  rw [if_neg (by decide), if_neg (by decide)]

theorem urlunparse_youtube (path : List Char) :
    pyUrlunparse (strOf "https") (strOf "www.youtube.com") path [] [] [] =
      youtubeOrigin ++
        (if path ≠ [] ∧ path.head? ≠ some '/' then '/' :: path else path) := by
  unfold pyUrlunparse
  rw [if_neg (by simp)]
  simp only [pyUrlunsplit]
  rw [if_pos (Or.inl (by decide)),
    if_pos (show strOf "https" ≠ [] from by decide),
    if_neg (show ¬ ([] : List Char) ≠ [] from by simp),
    if_neg (show ¬ ([] : List Char) ≠ [] from by simp)]
  by_cases hp : path ≠ [] ∧ path.head? ≠ some '/'
  · rw [if_pos hp]
    rfl
  · rw [if_neg hp]
    rfl

/-- Every canonical URL produced by `normalise_channel_url` is the YouTube
origin followed by a path that is empty or starts with a slash, and, when
a (truthy) channel id was supplied, contains `/channel/`. -/
theorem normalise_shape {url c : List Char} {cid : Option (List Char)}
    (h : normalise_channel_url url cid = some c) :
    ∃ q, c = youtubeOrigin ++ q ∧ (q = [] ∨ q.head? = some '/') ∧
      (cidTruthy cid = true → substrB (strOf "/channel/") q = true) := by
  simp only [normalise_channel_url] at h
  by_cases hu : url = []
  · rw [if_pos hu] at h
    exact absurd h (by simp)
  rw [if_neg hu] at h
  by_cases hyt : substrB (strOf "youtube") (resolvedNetloc url) = true
  · rw [if_pos hyt] at h
    by_cases hbr : cidTruthy cid = true ∧
        ¬ substrB (strOf "/channel/") (computedPath url) = true
    · rw [if_pos hbr] at h
      have hc := Option.some.inj h
      refine ⟨strOf "/channel/" ++ pyStrip (cid.getD []), ?_, Or.inr rfl, ?_⟩
      · rw [← hc, List.append_assoc]
      · intro _
        exact substrB_of_append_left _ _
    · rw [if_neg hbr] at h
      have hc := Option.some.inj h
      rw [urlunparse_youtube (computedPath url)] at hc
      refine ⟨if computedPath url ≠ [] ∧ (computedPath url).head? ≠ some '/'
          then '/' :: computedPath url else computedPath url, hc.symm, ?_, ?_⟩
      · by_cases hcp : computedPath url ≠ [] ∧ (computedPath url).head? ≠ some '/'
        · rw [if_pos hcp]
          exact Or.inr rfl
        · rw [if_neg hcp]
          push_neg at hcp
          by_cases hnil : computedPath url = []
          · exact Or.inl hnil
          · exact Or.inr (hcp hnil)
      · intro hcid
        have hsub : substrB (strOf "/channel/") (computedPath url) = true := by
          by_contra hno
          exact hbr ⟨hcid, hno⟩
        by_cases hcp : computedPath url ≠ [] ∧ (computedPath url).head? ≠ some '/'
        · rw [if_pos hcp]
          exact substrB_cons_of _ hsub
        · rw [if_neg hcp]
          exact hsub
  · rw [if_neg hyt] at h
    exact absurd h (by simp)

/-- Re-normalising a canonical URL of the shape produced by
`normalise_channel_url` is the identity, under the `canonicalStable` side
conditions. -/
theorem normalise_fixedpoint_aux (q : List Char) (cid : Option (List Char))
    (hhead : q = [] ∨ q.head? = some '/')
    (hstable : canonicalStable (youtubeOrigin ++ q))
    (hchan : cidTruthy cid = true → substrB (strOf "/channel/") q = true) :
    normalise_channel_url (youtubeOrigin ++ q) cid =
      some (youtubeOrigin ++ q) := by
  obtain ⟨h1, h2, h3, h4, h5, h6, h7, h8⟩ := hstable
  have hq1 : ¬ '?' ∈ q := fun hm => h1 (List.mem_append_right _ hm)
  have hq2 : ¬ '#' ∈ q := fun hm => h2 (List.mem_append_right _ hm)
  have ht : ¬ '\t' ∈ q := fun hm => h3 (List.mem_append_right _ hm)
  have hr : ¬ '\r' ∈ q := fun hm => h4 (List.mem_append_right _ hm)
  have hn : ¬ '\n' ∈ q := fun hm => h5 (List.mem_append_right _ hm)
  have hlastfacts : ∀ ch ∈ q.getLast?,
      isPyWs ch = false ∧ isC0OrSpace ch = false ∧ ch ≠ '/' := by
    intro ch hch
    have hcl : (youtubeOrigin ++ q).getLast? = some ch := by
      rw [List.getLast?_append, Option.mem_def.mp hch]
      rfl
    rw [hcl] at h6
    simp only [Option.all, decide_eq_true_eq] at h6
    exact ⟨by simp [h6.1], by simp [h6.2.1], h6.2.2⟩
  have hlastPy : ∀ ch ∈ q.getLast?, isPyWs ch = false :=
    fun ch hch => (hlastfacts ch hch).1
  have hlastC0 : ∀ ch ∈ q.getLast?, isC0OrSpace ch = false :=
    fun ch hch => (hlastfacts ch hch).2.1
  have habout : (strOf "/about").isSuffixOf q = false := by
    by_contra hcon
    have hsuf : (strOf "/about").isSuffixOf q = true := by
      revert hcon
      cases (strOf "/about").isSuffixOf q <;> simp
    have : (strOf "/about").isSuffixOf (youtubeOrigin ++ q) = true :=
      List.isSuffixOf_iff_suffix.mpr
        ((List.isSuffixOf_iff_suffix.mp hsuf).trans (List.suffix_append _ _))
    rw [this] at h7
    exact Bool.noConfusion h7
  have hsemi : ¬ ';' ∈ lastSlashSegment q := by
    rcases hhead with rfl | hh
    · simp [lastSlashSegment]
    · cases q with
      | nil => simp [lastSlashSegment]
      | cons a t =>
        obtain rfl : a = '/' := by simpa using hh
        intro hmem
        apply h8
        have hls : lastSlashSegment (youtubeOrigin ++ ('/' :: t)) =
            lastSlashSegment ('/' :: t) := by
          unfold lastSlashSegment
          rw [List.reverse_append,
            takeWhile_append_stop
              (show '/' ∈ ('/' :: t).reverse from
                List.mem_reverse.mpr (List.mem_cons_self '/' t))
              (by decide)]
        rw [hls]
        exact hmem
  have hnp := normParsed_youtube q hhead hq1 hq2 ht hr hn hlastC0 hlastPy hsemi
  have hrn : resolvedNetloc (youtubeOrigin ++ q) = strOf "www.youtube.com" := by
    unfold resolvedNetloc
    rw [hnp]
    dsimp only
    decide
  have hcp : computedPath (youtubeOrigin ++ q) = q := by
    unfold computedPath
    rw [hnp]
    dsimp only
    have hrs : rstripP (fun c => c = '/') q = q :=
      rstripP_eq_self_of_getLast
        (fun ch hch => by simp [(hlastfacts ch hch).2.2])
    rw [hrs, if_neg (by simp [habout])]
  simp only [normalise_channel_url]
  rw [if_neg (List.append_ne_nil_of_left_ne_nil (by decide) q)]
  rw [hrn]
  rw [if_pos (by decide), hcp, urlunparse_youtube q]
  have hnopre : ¬ (q ≠ [] ∧ q.head? ≠ some '/') := by
    rcases hhead with rfl | hh
    · simp
    · simp [hh]
  rw [if_neg hnopre]
  by_cases hcid : cidTruthy cid = true
  · rw [if_neg (fun hc => hc.2 (hchan hcid))]
  · rw [if_neg (fun hc => hcid hc.1)]

/-- C3 counterexample: `normalise_channel_url` is not idempotent on all
valid inputs.  The valid input `https://www.youtube.com/x/about/about`
yields the canonical URL `https://www.youtube.com/x/about`, but
normalising that output again strips another `/about` suffix and yields
`https://www.youtube.com/x`.  (Paths ending in a slash after the `/about`
strip, trailing whitespace kept inside the path, and a `;` in the final
path segment break idempotence in the same way.) -/
theorem claim_C3_counterexample :
    normalise_channel_url (strOf "https://www.youtube.com/x/about/about") none =
      some (strOf "https://www.youtube.com/x/about") ∧
    normalise_channel_url (strOf "https://www.youtube.com/x/about") none =
      some (strOf "https://www.youtube.com/x") ∧
    strOf "https://www.youtube.com/x" ≠ strOf "https://www.youtube.com/x/about" := by
  exact ⟨by decide, by decide, by decide⟩

/-- C3 amended: `normalise_channel_url` is idempotent on every valid input
whose canonical output is stable under the function's own preprocessing —
concretely, whenever the output does not end in `/about`, does not end in
a slash or a whitespace/control character, contains no `?`, `#`, tab, CR
or LF, and has no semicolon in its last path segment (`canonicalStable`).
Re-applying the function (with the same channel id) to such an output
returns that output unchanged. -/
theorem claim_C3_idempotent_amended :
    ∀ (url : List Char) (cid : Option (List Char)) (c : List Char),
      normalise_channel_url url cid = some c →
      canonicalStable c →
      normalise_channel_url c cid = some c := by
  intro url cid c h hst
  obtain ⟨q, rfl, hhead, hchan⟩ := normalise_shape h
  exact normalise_fixedpoint_aux q cid hhead hst hchan

/-- C3 witness: the amended theorem applied at a concrete valid input. -/
theorem claim_C3_witness :
    normalise_channel_url (strOf "https://www.youtube.com/c/foo") none =
      some (strOf "https://www.youtube.com/c/foo") :=
  claim_C3_idempotent_amended (strOf "https://www.youtube.com/c/foo/about")
    none (strOf "https://www.youtube.com/c/foo") (by decide) (by decide)

/-! ## Lemmas about stripping (used for claim C5) -/

theorem head_dropWhile_false {p : Char → Bool} (z : List Char) :
    ∀ ch ∈ (z.dropWhile p).head?, p ch = false := by
  induction z with
  | nil => intro ch hch; exact absurd hch (by simp)
  | cons a t ih =>
    intro ch hch
    rw [List.dropWhile_cons] at hch
    by_cases hp : p a = true
    · rw [if_pos hp] at hch
      exact ih ch hch
    · rw [if_neg hp] at hch
      obtain rfl : a = ch := by simpa using hch
      exact Bool.eq_false_iff.mpr hp

theorem getLast_rstripP_false {p : Char → Bool} (l : List Char) :
    ∀ ch ∈ (rstripP p l).getLast?, p ch = false := by
  unfold rstripP
  intro ch hch
  rw [List.getLast?_reverse] at hch
  exact head_dropWhile_false _ ch hch

/-- The URL synthesised from a channel id is already stripped, so the
final `url.strip()` in `_row_to_subscription` leaves it unchanged. -/
theorem pyStrip_synth (y : List Char) :
    pyStrip (youtubeOrigin ++ strOf "/channel/" ++ pyStrip y) =
      youtubeOrigin ++ strOf "/channel/" ++ pyStrip y := by
  rw [List.append_assoc]
  unfold pyStrip
  exact strip2_eq_self (head_append_youtube (by decide))
    (getLast_append_youtube (by decide) (by
      intro ch hch
      rw [List.getLast?_append] at hch
      cases hy : (pyStrip y).getLast? with
      | some c =>
        unfold pyStrip at hy
        rw [hy] at hch
        obtain rfl : c = ch := by simpa [Option.or] using hch
        exact getLast_rstripP_false _ _ hy
      | none =>
        unfold pyStrip at hy
        rw [hy] at hch
        obtain rfl : '/' = ch := by
          simpa [Option.or,
            show (strOf "/channel/").getLast? = some '/' from by decide] using hch
        decide))

theorem synthUrl_truthy (y : List Char) :
    truthyO (some (youtubeOrigin ++ strOf "/channel/" ++ y)) = true := by
  simp only [truthyO, decide_eq_true_eq, List.isEmpty_iff]
  exact List.append_ne_nil_of_left_ne_nil
    (List.append_ne_nil_of_left_ne_nil (by decide) _) y

theorem synthUrl_truthy_assoc (y : List Char) :
    truthyO (some (youtubeOrigin ++ (strOf "/channel/" ++ y))) = true := by
  rw [← List.append_assoc]
  exact synthUrl_truthy y

/-- C5: for every CSV row, `_row_to_subscription` returns a `Subscription`
exactly when the row supplies a (truthy) title and either a truthy URL or
a truthy channel id; when no truthy URL is found (so a channel id must be
present), the subscription's url is `https://www.youtube.com/channel/<id>`
(with the id stripped of surrounding whitespace, as the code does); the
concrete row with headers `Channel Title`/`Channel Url` and both values
present yields exactly one matching `Subscription`, and a row missing both
a resolvable title and URL yields `none` (no error: the function is
total). -/
theorem claim_C5_row_to_subscription :
    (∀ row : List (List Char × List Char),
        ((rowToSubscription row).isSome = true ↔
          truthyO (getFirst row titleKeys) = true ∧
            (truthyO (getFirst row urlKeys) = true ∨
              truthyO (getFirst row idKeys) = true))) ∧
    (∀ (row : List (List Char × List Char)) (s : Subscription),
        rowToSubscription row = some s →
        truthyO (getFirst row urlKeys) = false →
        s.url = youtubeOrigin ++ strOf "/channel/" ++
          pyStrip ((getFirst row idKeys).getD [])) ∧
    rowToSubscription
        [(strOf "Channel Title", strOf "Foo"),
         (strOf "Channel Url", strOf "https://www.youtube.com/c/foo")] =
      some ⟨strOf "Foo", strOf "https://www.youtube.com/c/foo", none⟩ ∧
    rowToSubscription [(strOf "Other", strOf "x")] = none := by
  refine ⟨?_, ?_, by decide, by decide⟩
  · intro row
    simp only [rowToSubscription]
    by_cases ht2 : truthyO (getFirst row titleKeys) = true <;>
      by_cases hu : truthyO (getFirst row urlKeys) = true <;>
        by_cases hc : truthyO (getFirst row idKeys) = true <;>
          simp [ht2, hu, hc, synthUrl_truthy, synthUrl_truthy_assoc]
  · intro row s hsome hnu
    simp only [rowToSubscription] at hsome
    by_cases hc : truthyO (getFirst row idKeys) = true
    · have hinner :
          (if ¬ truthyO (getFirst row urlKeys) = true ∧
              truthyO (getFirst row idKeys) = true then
            some (youtubeOrigin ++ strOf "/channel/" ++
              pyStrip ((getFirst row idKeys).getD []))
          else getFirst row urlKeys) =
            some (youtubeOrigin ++ strOf "/channel/" ++
              pyStrip ((getFirst row idKeys).getD [])) :=
        if_pos ⟨by simp [hnu], hc⟩
      rw [hinner] at hsome
      by_cases ht2 : truthyO (getFirst row titleKeys) = true
      · rw [if_neg (by
          rw [not_or]
          exact ⟨by simp [ht2],
            by simp [synthUrl_truthy, synthUrl_truthy_assoc]⟩)] at hsome
        have hs := Option.some.inj hsome
        rw [← hs]
        simp only [Option.getD]
        exact pyStrip_synth _
      · rw [if_pos (Or.inl ht2)] at hsome
        exact absurd hsome (by simp)
    · rw [show (if ¬ truthyO (getFirst row urlKeys) = true ∧
          truthyO (getFirst row idKeys) = true then
            some (youtubeOrigin ++ strOf "/channel/" ++
              pyStrip ((getFirst row idKeys).getD []))
          else getFirst row urlKeys) = getFirst row urlKeys
        from if_neg (fun hcon => hc hcon.2)] at hsome
      rw [if_pos (Or.inr (by simp [hnu]))] at hsome
      exact absurd hsome (by simp)

/-- C5 witness: a row giving only a channel id and a title produces a
subscription whose url is synthesised from the id, via the claim theorem
at a concrete row. -/
theorem claim_C5_witness :
    (Subscription.mk (strOf "T")
        (youtubeOrigin ++ strOf "/channel/" ++ pyStrip (strOf " UC9 "))
        (some (strOf " UC9 "))).url =
      youtubeOrigin ++ strOf "/channel/" ++
        pyStrip ((getFirst
          [(strOf "Channel ID", strOf " UC9 "), (strOf "Title", strOf "T")]
          idKeys).getD []) :=
  claim_C5_row_to_subscription.2.1
    [(strOf "Channel ID", strOf " UC9 "), (strOf "Title", strOf "T")]
    ⟨strOf "T",
     youtubeOrigin ++ strOf "/channel/" ++ pyStrip (strOf " UC9 "),
     some (strOf " UC9 ")⟩
    (by decide) (by decide)

/-- C8: when a non-empty filter list is supplied, a parsed link appears in
the record's `links` iff, compared case-insensitively, it contains at
least one filter term as a literal substring (anywhere in the URL string);
with no filters (`None`) or an empty filter list, every parsed link is
kept. -/
theorem claim_C8_filter_semantics :
    (∀ (fl : List (List Char)) (sub : Subscription) (text link : List Char),
        fl ≠ [] →
        (link ∈ (mkRecord (some fl) sub text).links ↔
          link ∈ parse_channel_links text ∧
            ∃ t ∈ fl, substrB (lowerStr t) (lowerStr link) = true)) ∧
    (∀ (sub : Subscription) (text : List Char),
        (mkRecord none sub text).links = parse_channel_links text ∧
        (mkRecord (some []) sub text).links = parse_channel_links text) := by
  constructor
  · intro fl sub text link hfl
    simp only [mkRecord, applyFilters, loweredFilters]
    rw [if_neg (by simp [List.isEmpty_iff, hfl])]
    rw [List.mem_filter]
    constructor
    · rintro ⟨hmem, hany⟩
      refine ⟨hmem, ?_⟩
      rcases List.any_eq_true.mp hany with ⟨f, hf, hsub⟩
      rcases List.mem_map.mp hf with ⟨t, ht, rfl⟩
      exact ⟨t, ht, hsub⟩
    · rintro ⟨hmem, t, ht, hsub⟩
      refine ⟨hmem, List.any_eq_true.mpr ?_⟩
      exact ⟨lowerStr t, List.mem_map.mpr ⟨t, ht, rfl⟩, hsub⟩
  · intro sub text
    exact ⟨rfl, rfl⟩

set_option maxRecDepth 100000 in
/-- C8 witness: with the (case-differing) filter `HDR`, the link
`https://hdr.example` is kept on the example page. -/
theorem claim_C8_witness :
    strOf "https://hdr.example" ∈
      (mkRecord (some [strOf "HDR"]) ⟨[], [], none⟩ c1ExamplePage).links :=
  (claim_C8_filter_semantics.1 [strOf "HDR"] ⟨[], [], none⟩ c1ExamplePage
      (strOf "https://hdr.example") (by decide)).mpr
    ⟨by decide, ⟨strOf "HDR", by decide, by decide⟩⟩

/-! ## Lemmas about the scrape loop (claims C6, C7, C10) -/

/-- Whether the fetch outcome is a raised `KeyboardInterrupt`. -/
def fetchIsKI : Except PyExn (List Char) → Bool
  | .error .keyboardInterrupt => true
  | _ => false

/-- An iteration at which the interrupt signal does not fire. -/
def iterClean (b : IterBehavior) : Prop :=
  b.kiAtStart = false ∧ b.kiAfterAppend = false ∧ fetchIsKI b.fetch = false

instance : DecidablePred iterClean := fun b => by
  unfold iterClean
  infer_instance

theorem aboutUrlE_error_valueError {s : Subscription} {e : PyExn}
    (h : aboutUrlE s = .error e) : e = .valueError := by
  unfold aboutUrlE at h
  cases hn : normalise_channel_url s.url s.channel_id with
  | none =>
    rw [hn] at h
    exact (Except.error.inj h).symm
  | some b =>
    rw [hn] at h
    dsimp only at h
    by_cases hb : b = []
    · rw [if_pos hb] at h
      exact (Except.error.inj h).symm
    · rw [if_neg hb] at h
      exact absurd h (by simp)

theorem aboutUrlE_ok_normalise {s : Subscription} {a : List Char}
    (h : aboutUrlE s = .ok a) :
    ∃ b, normalise_channel_url s.url s.channel_id = some b ∧ b ≠ [] := by
  unfold aboutUrlE at h
  cases hn : normalise_channel_url s.url s.channel_id with
  | none =>
    rw [hn] at h
    exact absurd h (by simp)
  | some b =>
    rw [hn] at h
    dsimp only at h
    by_cases hb : b = []
    · rw [if_pos hb] at h
      exact absurd h (by simp)
    · exact ⟨b, rfl, hb⟩

theorem runIter_clean_of (uf : Option (List (List Char)))
    (sub : Subscription) (b : IterBehavior) (h : iterClean b) :
    runIter uf sub b = (iterPure uf b sub, none) := by
  obtain ⟨h1, h2, h3⟩ := h
  unfold runIter iterPure
  rw [if_neg (by simp [h1])]
  cases haa : aboutUrlE sub with
  | error e =>
    dsimp only
    rw [aboutUrlE_error_valueError haa, if_pos rfl]
  | ok a =>
    dsimp only
    cases hf : b.fetch with
    | error e =>
      dsimp only
      cases e with
      | valueError => rw [if_pos (by decide)]
      | otherError => rw [if_pos (by decide)]
      | keyboardInterrupt =>
        rw [hf] at h3
        exact absurd h3 (by simp [fetchIsKI])
    | ok text =>
      dsimp only
      rw [if_neg (by simp [h2])]

theorem runIter_exn_cases (uf : Option (List (List Char)))
    (sub : Subscription) (b : IterBehavior) :
    (runIter uf sub b).2 = none ∨
      (runIter uf sub b).2 = some .keyboardInterrupt := by
  unfold runIter
  by_cases h1 : b.kiAtStart = true
  · rw [if_pos h1]
    exact Or.inr rfl
  · rw [if_neg h1]
    cases haa : aboutUrlE sub with
    | error e =>
      dsimp only
      rw [aboutUrlE_error_valueError haa, if_pos rfl]
      exact Or.inl rfl
    | ok a =>
      dsimp only
      cases hf : b.fetch with
      | error e =>
        dsimp only
        cases e with
        | valueError =>
          rw [if_pos (by decide)]
          exact Or.inl rfl
        | otherError =>
          rw [if_pos (by decide)]
          exact Or.inl rfl
        | keyboardInterrupt =>
          rw [if_neg (by decide)]
          exact Or.inr rfl
      | ok text =>
        dsimp only
        by_cases h2 : b.kiAfterAppend = true
        · rw [if_pos h2]
          exact Or.inr rfl
        · rw [if_neg h2]
          exact Or.inl rfl

theorem runIter_rec_some {uf : Option (List (List Char))}
    {sub : Subscription} {b : IterBehavior} {r : ResultRecord}
    (h : (runIter uf sub b).1 = some r) :
    (∃ a, aboutUrlE sub = .ok a) ∧
      ∃ text, b.fetch = .ok text ∧ r = mkRecord uf sub text := by
  unfold runIter at h
  by_cases h1 : b.kiAtStart = true
  · rw [if_pos h1] at h
    exact absurd h (by simp)
  · rw [if_neg h1] at h
    cases haa : aboutUrlE sub with
    | error e =>
      rw [haa] at h
      dsimp only at h
      by_cases he : e = .valueError
      · rw [if_pos he] at h
        exact absurd h (by simp)
      · rw [if_neg he] at h
        exact absurd h (by simp)
    | ok a =>
      rw [haa] at h
      dsimp only at h
      cases hf : b.fetch with
      | error e =>
        rw [hf] at h
        dsimp only at h
        by_cases hex : isExceptionClass e = true
        · rw [if_pos hex] at h
          exact absurd h (by simp)
        · rw [if_neg hex] at h
          exact absurd h (by simp)
      | ok text =>
        rw [hf] at h
        dsimp only at h
        refine ⟨⟨a, rfl⟩, text, rfl, ?_⟩
        exact (Option.some.inj h).symm

theorem scrapeLoop_acc (uf : Option (List (List Char)))
    (behav : Nat → IterBehavior) :
    ∀ (l : List Subscription) (i : Nat) (acc : List ResultRecord),
      scrapeLoop uf behav l i acc =
        (acc ++ (scrapeLoop uf behav l i []).1,
         (scrapeLoop uf behav l i []).2) := by
  intro l
  induction l with
  | nil => intro i acc; simp [scrapeLoop]
  | cons s rest ih =>
    intro i acc
    unfold scrapeLoop
    cases hri : runIter uf s (behav i) with
    | mk rec? e? =>
      cases e? with
      | some e => simp
      | none =>
        dsimp only
        rw [ih (i + 1) (acc ++ rec?.toList), ih (i + 1) ([] ++ rec?.toList)]
        simp

theorem scrapeLoop_split_clean (uf : Option (List (List Char)))
    (behav : Nat → IterBehavior) :
    ∀ (k : Nat) (l : List Subscription) (i : Nat), k ≤ l.length →
      (∀ m, m < k → iterClean (behav (i + m))) →
      scrapeLoop uf behav l i [] =
        ((List.enumFrom i (l.take k)).filterMap
            (fun p => iterPure uf (behav p.1) p.2) ++
          (scrapeLoop uf behav (l.drop k) (i + k) []).1,
         (scrapeLoop uf behav (l.drop k) (i + k) []).2) := by
  intro k
  induction k with
  | zero =>
    intro l i _ _
    simp
  | succ k ih =>
    intro l i hk hcl
    cases l with
    | nil => exact absurd hk (by simp)
    | cons s rest =>
      have h0 : iterClean (behav i) := by
        have := hcl 0 (Nat.succ_pos k)
        simpa using this
      have hstep : scrapeLoop uf behav (s :: rest) i [] =
          scrapeLoop uf behav rest (i + 1)
            ([] ++ (iterPure uf (behav i) s).toList) := by
        unfold scrapeLoop
        rw [runIter_clean_of uf s (behav i) h0]
        split
        · next rec? e heq =>
            exact absurd (congrArg Prod.snd heq) (by simp)
        · next rec? heq =>
            rw [show rec? = iterPure uf (behav i) s from
              (congrArg Prod.fst heq).symm]
            rw [scrapeLoop.eq_def]
      rw [hstep,
        scrapeLoop_acc uf behav rest (i + 1)
          ([] ++ (iterPure uf (behav i) s).toList),
        ih rest (i + 1) (Nat.le_of_succ_le_succ hk)
          (fun m hm => by
            have := hcl (m + 1) (Nat.succ_lt_succ hm)
            rwa [show i + (m + 1) = i + 1 + m from by omega] at this)]
      simp only [List.take_succ_cons, List.drop_succ_cons, List.enumFrom_cons,
        List.filterMap_cons]
      rw [show i + (k + 1) = i + 1 + k from by omega]
      cases hip : iterPure uf (behav i) s with
      | none => simp
      | some r => simp

theorem scrapeLoop_mem {uf : Option (List (List Char))}
    {behav : Nat → IterBehavior} :
    ∀ (l : List Subscription) (i : Nat) (acc : List ResultRecord)
      (r : ResultRecord), r ∈ (scrapeLoop uf behav l i acc).1 →
      r ∈ acc ∨ ∃ sub ∈ l, ∃ text, (∃ a, aboutUrlE sub = .ok a) ∧
        r = mkRecord uf sub text := by
  intro l
  induction l with
  | nil =>
    intro i acc r hr
    exact Or.inl hr
  | cons s rest ih =>
    intro i acc r hr
    unfold scrapeLoop at hr
    cases hri : runIter uf s (behav i) with
    | mk rec? e? =>
      rw [hri] at hr
      have hacc : r ∈ acc ++ rec?.toList →
          r ∈ acc ∨ ∃ sub ∈ s :: rest, ∃ text,
            (∃ a, aboutUrlE sub = .ok a) ∧ r = mkRecord uf sub text := by
        intro hm
        rcases List.mem_append.mp hm with hm | hm
        · exact Or.inl hm
        · cases rec? with
          | none => exact absurd hm (by simp)
          | some r0 =>
            obtain rfl : r = r0 := by simpa using hm
            obtain ⟨ha, text, _, hrr⟩ :=
              runIter_rec_some (show (runIter uf s (behav i)).1 = some r by
                rw [hri])
            exact Or.inr ⟨s, List.mem_cons_self s rest, text, ha, hrr⟩
      cases e? with
      | some e =>
        exact hacc hr
      | none =>
        rcases ih (i + 1) (acc ++ rec?.toList) r hr with hm | hm
        · exact hacc hm
        · obtain ⟨sub, hsub, text, ha, hrr⟩ := hm
          exact Or.inr ⟨sub, List.mem_cons_of_mem s hsub, text, ha, hrr⟩

theorem scrapeLoop_exn_ki (uf : Option (List (List Char)))
    (behav : Nat → IterBehavior) :
    ∀ (l : List Subscription) (i : Nat) (acc : List ResultRecord),
      (scrapeLoop uf behav l i acc).2 = none ∨
        (scrapeLoop uf behav l i acc).2 = some .keyboardInterrupt := by
  intro l
  induction l with
  | nil => intro i acc; exact Or.inl rfl
  | cons s rest ih =>
    intro i acc
    unfold scrapeLoop
    cases hri : runIter uf s (behav i) with
    | mk rec? e? =>
      cases e? with
      | some e =>
        have := runIter_exn_cases uf s (behav i)
        rw [hri] at this
        rcases this with h | h
        · exact absurd h (by simp)
        · exact Or.inr (by simpa using h)
      | none => exact ih (i + 1) (acc ++ rec?.toList)

/-- A run whose loop stops with a `KeyboardInterrupt` right at iteration
`k` (after `k` clean iterations) returns the records of the first `k`
iterations plus whatever iteration `k` appended before the interrupt. -/
theorem scrape_links_of_split {subs : List Subscription}
    {uf : Option (List (List Char))} {behav : Nat → IterBehavior} {k : Nat}
    (hk : k ≤ subs.length) (hcl : ∀ m, m < k → iterClean (behav m))
    (o : Option ResultRecord)
    (hone : scrapeLoop uf behav (subs.drop k) (0 + k) [] =
      (o.toList, some .keyboardInterrupt)) :
    scrape_links subs behav uf =
      .ok (scrapePure uf behav (subs.take k) ++ o.toList) := by
  unfold scrape_links
  rw [scrapeLoop_split_clean uf behav k subs 0 hk
    (fun m hm => by simpa using hcl m hm), hone]
  rfl

/-- C7: under a run with no interrupt signal, `scrape_links` returns
`.ok` of exactly one record per successfully fetched subscription, in
input order (`scrapePure`): a fetch that raises any (non-interrupt)
exception, or a failing URL resolution, skips only that subscription and
the remaining subscriptions are all still processed; nothing is
re-raised. -/
theorem claim_C7_fetch_failure_isolation :
    ∀ (subs : List Subscription) (uf : Option (List (List Char)))
      (behav : Nat → IterBehavior),
      (∀ m, m < subs.length → iterClean (behav m)) →
      scrape_links subs behav uf = .ok (scrapePure uf behav subs) := by
  intro subs uf behav h
  unfold scrape_links
  have hsplit := scrapeLoop_split_clean uf behav subs.length subs 0
    (Nat.le_refl _) (fun m hm => by simpa using h m hm)
  rw [List.take_length, List.drop_length,
    show scrapeLoop uf behav [] (0 + subs.length) [] =
      ([], (none : Option PyExn)) from rfl] at hsplit
  dsimp only at hsplit
  rw [List.append_nil] at hsplit
  rw [hsplit]
  rfl

def c7Behav : Nat → IterBehavior := fun i =>
  if i = 1 then ⟨false, .error .otherError, false⟩
  else ⟨false, .ok (strOf "no links here"), false⟩

def c7Subs : List Subscription :=
  [⟨strOf "A", strOf "https://www.youtube.com/c/a", none⟩,
   ⟨strOf "B", strOf "https://www.youtube.com/c/b", none⟩,
   ⟨strOf "C", strOf "https://www.youtube.com/c/c", none⟩]

/-- C7 witness: a concrete run in which the second fetch raises — the
run does not raise and still processes the remaining subscription. -/
theorem claim_C7_witness :
    scrape_links c7Subs c7Behav none = .ok (scrapePure none c7Behav c7Subs) :=
  claim_C7_fetch_failure_isolation c7Subs none c7Behav (by decide)

/-- C6: first, `scrape_links` always returns `.ok` (a `KeyboardInterrupt`
escaping the loop is caught and never re-raised); second, when the
interrupt signal fires at iteration `k` — at the start of the iteration,
during the fetch, or after the append — after `k` clean iterations, the
function returns exactly the records collected for the already completed
subscriptions (including iteration `k`'s record when the interrupt comes
after its append), unchanged. -/
theorem claim_C6_interrupt_partial_results :
    (∀ (subs : List Subscription) (uf : Option (List (List Char)))
        (behav : Nat → IterBehavior),
        ∃ res, scrape_links subs behav uf = .ok res) ∧
    (∀ (subs : List Subscription) (uf : Option (List (List Char)))
        (behav : Nat → IterBehavior) (k : Nat) (hk : k < subs.length),
        (∀ m, m < k → iterClean (behav m)) →
        (((behav k).kiAtStart = true →
            scrape_links subs behav uf =
              .ok (scrapePure uf behav (subs.take k))) ∧
         ((behav k).kiAtStart = false →
            (∃ a, aboutUrlE (subs.get ⟨k, hk⟩) = .ok a) →
            (behav k).fetch = .error .keyboardInterrupt →
            scrape_links subs behav uf =
              .ok (scrapePure uf behav (subs.take k))) ∧
         (∀ text, (behav k).kiAtStart = false →
            (∃ a, aboutUrlE (subs.get ⟨k, hk⟩) = .ok a) →
            (behav k).fetch = .ok text →
            (behav k).kiAfterAppend = true →
            scrape_links subs behav uf =
              .ok (scrapePure uf behav (subs.take k) ++
                [mkRecord uf (subs.get ⟨k, hk⟩) text])))) := by
  constructor
  · intro subs uf behav
    have hex := scrapeLoop_exn_ki uf behav subs 0 []
    unfold scrape_links
    cases hsl : scrapeLoop uf behav subs 0 [] with
    | mk res e? =>
      rw [hsl] at hex
      cases e? with
      | none => exact ⟨res, rfl⟩
      | some e =>
        rcases hex with h | h
        · exact absurd h (by simp)
        · obtain rfl : e = .keyboardInterrupt := by simpa using h
          exact ⟨res, rfl⟩
  · intro subs uf behav k hk hcl
    have hdk : subs.drop k = subs.get ⟨k, hk⟩ :: subs.drop (k + 1) :=
      (List.get_cons_drop subs ⟨k, hk⟩).symm
    have hstep : ∀ rec? : Option ResultRecord,
        runIter uf (subs.get ⟨k, hk⟩) (behav (0 + k)) =
          (rec?, some .keyboardInterrupt) →
        scrapeLoop uf behav (subs.drop k) (0 + k) [] =
          (rec?.toList, some .keyboardInterrupt) := by
      intro rec? hri
      rw [hdk, scrapeLoop.eq_def]
      dsimp only
      rw [hri]
      rfl
    have h0k : 0 + k = k := Nat.zero_add k
    refine ⟨?_, ?_, ?_⟩
    · intro hki
      have h' := scrape_links_of_split (Nat.le_of_lt hk) hcl
        none (hstep none (by
          unfold runIter
          rw [h0k, if_pos hki]))
      simpa using h'
    · rintro hks ⟨a, ha⟩ hfe
      have h' := scrape_links_of_split (Nat.le_of_lt hk) hcl
        none (hstep none (by
          unfold runIter
          rw [h0k, if_neg (by simp [hks]), ha]
          dsimp only
          rw [hfe]
          dsimp only
          rw [if_neg (by decide)]))
      simpa using h'
    · rintro text hks ⟨a, ha⟩ hfo hka
      have h' := scrape_links_of_split (Nat.le_of_lt hk) hcl
        (some (mkRecord uf (subs.get ⟨k, hk⟩) text)) (hstep _ (by
          unfold runIter
          rw [h0k, if_neg (by simp [hks]), ha]
          dsimp only
          rw [hfo]
          dsimp only
          rw [if_pos hka]))
      simpa using h'

def c6Behav : Nat → IterBehavior := fun i =>
  if i = 1 then ⟨true, .ok (strOf "x"), false⟩
  else ⟨false, .ok (strOf "x"), false⟩

def c6Subs : List Subscription :=
  [⟨strOf "A", strOf "https://www.youtube.com/c/a", none⟩,
   ⟨strOf "B", strOf "https://www.youtube.com/c/b", none⟩]

/-- C6 witness: a concrete run interrupted at the start of the second
iteration returns `.ok` of the first iteration's record only. -/
theorem claim_C6_witness :
    scrape_links c6Subs c6Behav none =
      .ok (scrapePure none c6Behav (c6Subs.take 1)) :=
  (claim_C6_interrupt_partial_results.2 c6Subs none c6Behav 1 (by decide)
    (by decide)).1 (by decide)

/-- The canonical URL is never the empty string. -/
theorem normalise_some_ne_nil {url c : List Char} {cid : Option (List Char)}
    (h : normalise_channel_url url cid = some c) : c ≠ [] := by
  obtain ⟨q, rfl, _, _⟩ := normalise_shape h
  exact List.append_ne_nil_of_left_ne_nil (by decide) q

/-- C10: every record in the list returned by `scrape_links` carries, as
its `channel_url`, the non-empty canonical URL of its subscription: a
record is only appended after `about_url` succeeded, which requires
`normalise_channel_url` to return a truthy value, so the
`canonical_url or subscription.url` fallback to the raw URL is
unreachable. -/
theorem claim_C10_channel_url_canonical :
    ∀ (subs : List Subscription) (uf : Option (List (List Char)))
      (behav : Nat → IterBehavior) (res : List ResultRecord),
      scrape_links subs behav uf = .ok res →
      ∀ r ∈ res, ∃ sub ∈ subs, ∃ c,
        normalise_channel_url sub.url sub.channel_id = some c ∧ c ≠ [] ∧
        r.channel_url = c ∧ r.channel_title = sub.title := by
  intro subs uf behav res hok r hr
  have hres : r ∈ (scrapeLoop uf behav subs 0 []).1 := by
    unfold scrape_links at hok
    cases hsl : scrapeLoop uf behav subs 0 [] with
    | mk res' e? =>
      rw [hsl] at hok
      cases e? with
      | none =>
        obtain rfl : res' = res := by simpa using hok
        simpa using hr
      | some e =>
        cases e with
        | keyboardInterrupt =>
          obtain rfl : res' = res := by simpa using hok
          simpa using hr
        | valueError => exact absurd hok (by simp)
        | otherError => exact absurd hok (by simp)
  rcases scrapeLoop_mem subs 0 [] r hres with h | h
  · exact absurd h (by simp)
  · obtain ⟨sub, hsub, text, ⟨a, ha⟩, rfl⟩ := h
    obtain ⟨b, hb, hbnil⟩ := aboutUrlE_ok_normalise ha
    refine ⟨sub, hsub, b, hb, hbnil, ?_, rfl⟩
    unfold mkRecord
    rw [hb]
    dsimp only
    rw [if_neg hbnil]

def c10Subs : List Subscription :=
  [⟨strOf "A", strOf "https://www.youtube.com/c/a", none⟩]

def c10Behav : Nat → IterBehavior :=
  fun _ => ⟨false, .ok (strOf "x"), false⟩

/-- C10 witness: the claim theorem applied to a concrete one-subscription
run and its single record. -/
theorem claim_C10_witness :
    ∃ sub ∈ c10Subs, ∃ c,
      normalise_channel_url sub.url sub.channel_id = some c ∧ c ≠ [] ∧
      (mkRecord none (c10Subs.get ⟨0, by decide⟩) (strOf "x")).channel_url = c ∧
      (mkRecord none (c10Subs.get ⟨0, by decide⟩) (strOf "x")).channel_title =
        sub.title :=
  claim_C10_channel_url_canonical c10Subs none c10Behav
    [mkRecord none (c10Subs.get ⟨0, by decide⟩) (strOf "x")] (by rfl)
    (mkRecord none (c10Subs.get ⟨0, by decide⟩) (strOf "x")) (by decide)

/-- C9: on any accepted input (non-empty, ASCII, bracket-free, resolved
netloc containing `"youtube"`), when a non-empty channel id is supplied:
if the computed path does not contain a `/channel/` segment the result is
exactly `https://www.youtube.com/channel/<id>` (with the id stripped of
surrounding whitespace, as the code does) regardless of the computed path;
if the path does contain `/channel/`, the channel id does not override the
URL rebuilt from the computed path. -/
theorem claim_C9_channel_id_override :
    ∀ (url s : List Char),
      url ≠ [] → isAsciiStr url = true → ¬ '[' ∈ url → ¬ ']' ∈ url →
      substrB (strOf "youtube") (resolvedNetloc url) = true →
      s ≠ [] →
      ((substrB (strOf "/channel/") (computedPath url) = false →
          normalise_channel_url url (some s) =
            some (youtubeOrigin ++ strOf "/channel/" ++ pyStrip s)) ∧
       (substrB (strOf "/channel/") (computedPath url) = true →
          normalise_channel_url url (some s) =
            some (pyUrlunparse (strOf "https") (strOf "www.youtube.com")
              (computedPath url) [] [] []))) := by
  intro url s hne _ _ _ hyt hs
  have hcid : cidTruthy (some s) = true := by
    simp [cidTruthy, List.isEmpty_iff, hs]
  constructor
  · intro hno
    unfold normalise_channel_url
    rw [if_neg hne, if_pos hyt,
      if_pos (by exact ⟨hcid, by simp [hno]⟩)]
    simp
  · intro hyes
    unfold normalise_channel_url
    rw [if_neg hne, if_pos hyt,
      if_neg (by simp [hyes])]

/-- C9 witness: concrete instances of both halves — a `/user/` path is
overridden by the supplied channel id, a `/channel/` path is not. -/
theorem claim_C9_witness :
    normalise_channel_url (strOf "https://www.youtube.com/user/x")
        (some (strOf "UC1")) =
      some (youtubeOrigin ++ strOf "/channel/" ++ pyStrip (strOf "UC1")) ∧
    normalise_channel_url (strOf "https://www.youtube.com/channel/UC2")
        (some (strOf "UC1")) =
      some (pyUrlunparse (strOf "https") (strOf "www.youtube.com")
        (computedPath (strOf "https://www.youtube.com/channel/UC2")) [] [] []) :=
  ⟨(claim_C9_channel_id_override (strOf "https://www.youtube.com/user/x")
      (strOf "UC1") (by decide) (by decide) (by decide) (by decide)
      (by decide) (by decide)).1 (by decide),
   (claim_C9_channel_id_override (strOf "https://www.youtube.com/channel/UC2")
      (strOf "UC1") (by decide) (by decide) (by decide) (by decide)
      (by decide) (by decide)).2 (by decide)⟩

end YT


